import Mathlib

/-!
# PTY session manager of aiterm (internal/term/pty.go)

A shallow embedding of the per-session sequenced output buffer, its byte-capped
eviction and the polling read protocol, of the manager operations and the
session tasks, and of their callers in internal/server/server.go and the
non-PTY run path internal/term/shellrun.go, followed by theorems about them.

Conventions of the embedding.
* Sequence numbers (`uint64` in the source) and byte counts (`int`) are natural
  numbers; `maxBytes` (`int`) and durations and clock readings (`int64`
  nanoseconds) are integers, since the source compares them with zero.
  The counter `nextSeq` is incremented once per successful PTY read, so
  wrap-around at 2^64 is out of reach and is not modelled.
* A session is shared between goroutines under its mutex.  Code that runs with
  the mutex held is a function on the session state; `PTYRead`, which re-locks
  on every iteration of its loop, consumes one `Tick` per iteration: the
  session state it finds under the lock and the clock reading it takes.
-/

namespace PTY

/-- One byte of PTY output. -/
abbrev Byte := Fin 256

/-- Chunk represents a piece of streamed PTY output (pty.go, `type Chunk`). -/
structure Chunk where
  Seq : Nat
  Stream : String
  Data : List Byte
  Ts : Int
deriving DecidableEq, Repr

/-- PTYSession holds the state of a running PTY process (pty.go, `type PTYSession`).
The OS handles `cmd` and `pty` and the condition variable carry no state of
their own here; `closedCh` records whether the channel has been closed and
`logf` holds the bytes written so far to the log file, when one was opened. -/
structure PTYSession where
  id : String
  chunks : List Chunk
  nextSeq : Nat
  closed : Bool
  closedCh : Bool
  exitRC : Option Int
  logf : Option (List Byte)
deriving DecidableEq, Repr

/-- The session value built by `PTYOpen` (pty.go lines 91-108): empty buffer,
`nextSeq: 1`, not closed; `logOpened` tells whether the log file could be opened. -/
def newSession (id : String) (logOpened : Bool) : PTYSession :=
  { id := id
    chunks := []
    nextSeq := 1
    closed := false
    closedCh := false
    exitRC := none
    logf := if logOpened then some [] else none }

/-- The source function `capSize`: `1 << 20`. -/
def capSize : Nat := 1 <<< 20

/-- The loop of `enforceCap` (pty.go lines 171-178).  `k` is `i + 1` for the
loop index `i`, which runs from `len(chunks) - 1` down to `0`; `total` is the
running byte count.  On the first index at which the running total exceeds
the cap the buffer becomes `chunks[i+1:]` and the loop stops. -/
def enforceCapLoop (chunks : List Chunk) : Nat → Nat → List Chunk
  | 0, _ => chunks
  | i + 1, total =>
    let total1 := total + ((chunks.get? i).map (fun c => c.Data.length)).getD 0
    if total1 > capSize then chunks.drop (i + 1)
    else enforceCapLoop chunks i total1

/-- The source method `PTYSession.enforceCap` (pty.go lines 168-179). -/
def enforceCap (s : PTYSession) : PTYSession :=
  { s with chunks := enforceCapLoop s.chunks s.chunks.length 0 }

/-- The chunk literal of line 127 of `reader`:
`Chunk{Seq: s.nextSeq, Stream: "stdout", Data: data, Ts: time.Now()}`. -/
def newChunk (s : PTYSession) (data : List Byte) (now : Int) : Chunk :=
  { Seq := s.nextSeq, Stream := "stdout", Data := data, Ts := now }

/-- Lines 127-128 of `reader`: append a chunk carrying `nextSeq`, then
increment `nextSeq`. -/
def pushChunk (s : PTYSession) (data : List Byte) (now : Int) : PTYSession :=
  { s with
    chunks := s.chunks ++ [newChunk s data now]
    nextSeq := s.nextSeq + 1 }

/-- The locked block of `reader` for a read of `n > 0` bytes (pty.go lines
124-132): append the chunk, increment `nextSeq`, enforce the cap. -/
def appendChunk (s : PTYSession) (data : List Byte) (now : Int) : PTYSession :=
  enforceCap (pushChunk s data now)

/-- The session after a sequence of reader appends, each given by the bytes read
and the clock reading stored in the chunk. -/
def appendAll (s : PTYSession) (reads : List (List Byte × Int)) : PTYSession :=
  reads.foldl (fun st r => appendChunk st r.1 r.2) s

/-- The collection loop of `PTYRead` (pty.go lines 202-211).  `bytes` is the
running byte count; the result is `out`. -/
def collect (sinceSeq : Nat) (maxBytes : Int) : List Chunk → Nat → List Chunk
  | [], _ => []
  | c :: rest, bytes =>
    if c.Seq ≤ sinceSeq then collect sinceSeq maxBytes rest bytes
    else
      let bytes1 := bytes + c.Data.length
      if maxBytes > 0 ∧ (bytes1 : Int) ≥ maxBytes then [c]
      else c :: collect sinceSeq maxBytes rest bytes1

/-- What `PTYRead` returns: the chunks, the closed flag and the error. -/
structure ReadResult where
  chunks : List Chunk
  closed : Bool
  err : Option String
deriving DecidableEq, Repr

/-- What one iteration of the loop of `PTYRead` meets: the session state under
the lock (lines 200-212), the clock reading of line 218, and the value of
`s.closed` that line 221 reads again after the unlock. -/
structure Tick where
  sess : PTYSession
  now : Int
  closedLate : Bool
deriving DecidableEq, Repr

/-- Outcome of one iteration of the loop of `PTYRead`: return a result, or
sleep 50 ms and iterate again. -/
inductive Iter where
  | ret (r : ReadResult)
  | sleep
deriving DecidableEq, Repr

/-- One iteration of the loop of `PTYRead` (pty.go lines 200-225). -/
def readIter (sinceSeq : Nat) (maxBytes : Int) (timeout deadline : Int) (t : Tick) : Iter :=
  let out := collect sinceSeq maxBytes t.sess.chunks 0
  let closed := t.sess.closed
  if out.length > 0 ∨ closed = true then Iter.ret { chunks := out, closed := closed, err := none }
  else if timeout > 0 ∧ t.now > deadline then
    Iter.ret { chunks := [], closed := t.closedLate, err := none }
  else Iter.sleep

/-- The loop of `PTYRead` (pty.go lines 199-226) over the iterations the
environment supplies; `none` when the call is still asleep after the last. -/
def readLoop (sinceSeq : Nat) (maxBytes : Int) (timeout deadline : Int) :
    List Tick → Option ReadResult
  | [] => none
  | t :: ts =>
    match readIter sinceSeq maxBytes timeout deadline t with
    | Iter.ret r => some r
    | Iter.sleep => readLoop sinceSeq maxBytes timeout deadline ts

/-- PTYManager manages multiple PTY sessions (pty.go, `type PTYManager`); the
map is an association list searched from the front. -/
structure PTYManager where
  sessions : List (String × PTYSession)
  maxBytes : Int
  baseDir : String
deriving DecidableEq, Repr

/-- The source function `NewPTYManager`. -/
def NewPTYManager : PTYManager :=
  { sessions := [], maxBytes := 1 <<< 20, baseDir := "/tmp/aiterm/sessions" }

/-- The source method `PTYManager.get`: `m.sessions[id]`, nil when absent. -/
def PTYManager.get (m : PTYManager) (id : String) : Option PTYSession :=
  m.sessions.lookup id

/-- The source method `PTYManager.PTYRead` (pty.go lines 193-227).  `start` is
the clock reading of line 198 and `ticks` what each iteration of the loop
meets. -/
def PTYRead (m : PTYManager) (id : String) (sinceSeq : Nat) (maxBytes : Int)
    (timeout : Int) (start : Int) (ticks : List Tick) : Option ReadResult :=
  match m.get id with
  | none => some { chunks := [], closed := false, err := some "no such session" }
  | some _ => readLoop sinceSeq maxBytes timeout (start + timeout) ticks

/-- Total data length of a list of chunks. -/
def totalBytes (cs : List Chunk) : Nat :=
  (cs.map (fun c => c.Data.length)).sum

/-- The chunks of a buffer that a read with `sinceSeq` is after, in buffer order. -/
def matching (sinceSeq : Nat) (cs : List Chunk) : List Chunk :=
  cs.filter (fun c => sinceSeq < c.Seq)

/-- Strictly increasing sequence numbers along a list of chunks. -/
def SeqIncreasing (cs : List Chunk) : Prop :=
  cs.Pairwise (fun a b => a.Seq < b.Seq)

instance (cs : List Chunk) : Decidable (SeqIncreasing cs) := by
  unfold SeqIncreasing; infer_instance

/-- Consecutive buffered chunks differ in sequence number by exactly one. -/
def Consecutive (cs : List Chunk) : Prop :=
  cs.Chain' (fun a b => b.Seq = a.Seq + 1)

instance (cs : List Chunk) : Decidable (Consecutive cs) := by
  unfold Consecutive; infer_instance

/-- Every chunk that a sequence of reader appends creates, in order of creation,
whether or not it is still buffered; `seq` is `nextSeq` before the first. -/
def producedFrom (seq : Nat) : List (List Byte × Int) → List Chunk
  | [] => []
  | r :: rs => { Seq := seq, Stream := "stdout", Data := r.1, Ts := r.2 } :: producedFrom (seq + 1) rs

/-- The invariant of the buffer: consecutive sequence numbers, the last of
which is one below `nextSeq`. -/
def BufferInv (s : PTYSession) : Prop :=
  Consecutive s.chunks ∧ ∀ c ∈ s.chunks.getLast?, c.Seq + 1 = s.nextSeq

/-- A session with three buffered chunks, as left by three reads of the PTY. -/
def demoSession : PTYSession :=
  appendAll (newSession "a1b2c3d4" true) [([104, 105], 10), ([10], 20), ([111, 107, 10], 30)]

/-- A manager holding `demoSession` under its id. -/
def demoManager : PTYManager :=
  { NewPTYManager with sessions := [("a1b2c3d4", demoSession)] }

/-- A polling client of one session, as in `ptyFollowCmd` (ptycli.go lines
94-112) and the read loop of `TestShellRunAndPTYFlow`: `since` is its cursor
and `acc` the chunks it has received so far, in order.  `produced` records
every chunk the reader has appended to the session, evicted or not. -/
structure Follower where
  sess : PTYSession
  since : Nat
  acc : List Chunk
  produced : List Chunk
deriving DecidableEq, Repr

/-- What happens next to a followed session: the reader appends a chunk, or an
iteration of the client's pending `PTYRead` call runs, with the call's
`maxBytes`, `timeout` and deadline and what the iteration meets. -/
inductive Event where
  | append (data : List Byte) (now : Int)
  | read (maxBytes timeout deadline now : Int) (closedLate : Bool)
deriving DecidableEq, Repr

/-- The client's loop over the chunks of a response (ptycli.go lines 104-108):
take each chunk and set `since = c.Seq`. -/
def consume (f : Follower) (chunks : List Chunk) : Follower :=
  chunks.foldl (fun g c => { g with acc := g.acc ++ [c], since := c.Seq }) f

/-- One event on a followed session.  A read iteration is made with the client's
current `since`; when it returns the client consumes the chunks, when it sleeps
nothing changes. -/
def Follower.step (f : Follower) : Event → Follower
  | Event.append data now =>
    { f with sess := appendChunk f.sess data now
             produced := f.produced ++ [newChunk f.sess data now] }
  | Event.read maxBytes timeout deadline now closedLate =>
    match readIter f.since maxBytes timeout deadline
        { sess := f.sess, now := now, closedLate := closedLate } with
    | Iter.ret r => consume f r.chunks
    | Iter.sleep => f

/-- The state after a sequence of events. -/
def Follower.run (f : Follower) (evs : List Event) : Follower :=
  evs.foldl Follower.step f

/-- A client starting to follow a session just opened: cursor 0, nothing received. -/
def Follower.start (sid : String) (logOpened : Bool) : Follower :=
  { sess := newSession sid logOpened, since := 0, acc := [], produced := [] }

/-- The event evicts no chunk the client has not received yet: the chunks with
`Seq` above the client's cursor are the same after `enforceCap` as before it. -/
def keepsUnread (f : Follower) : Event → Prop
  | Event.append data now =>
    matching f.since (appendChunk f.sess data now).chunks =
      matching f.since (pushChunk f.sess data now).chunks
  | Event.read _ _ _ _ _ => True

instance (f : Follower) (e : Event) : Decidable (keepsUnread f e) := by
  cases e <;> unfold keepsUnread <;> infer_instance

/-- No append of the sequence evicts a chunk the client has not received yet. -/
def NoLoss : Follower → List Event → Prop
  | _, [] => True
  | f, e :: es => keepsUnread f e ∧ NoLoss (f.step e) es

instance decNoLoss : (f : Follower) → (evs : List Event) → Decidable (NoLoss f evs)
  | _, [] => isTrue trivial
  | f, e :: es =>
    haveI := decNoLoss (f.step e) es
    inferInstanceAs (Decidable (keepsUnread f e ∧ NoLoss (f.step e) es))

/-- The reads of the PTY among a sequence of events. -/
def appendsOf : List Event → List (List Byte × Int)
  | [] => []
  | Event.append data now :: es => (data, now) :: appendsOf es
  | Event.read _ _ _ _ _ :: es => appendsOf es

/-- The invariant of a followed session: the produced chunks are in increasing
`Seq` order below `nextSeq`; the client has received exactly those up to its
cursor, which is the `Seq` of the last one received; the others are buffered. -/
structure FollowInv (f : Follower) : Prop where
  sorted : SeqIncreasing f.produced
  below : ∀ c ∈ f.produced, c.Seq < f.sess.nextSeq
  split : f.produced = f.acc ++ matching f.since f.produced
  seen : ∀ c ∈ f.acc, c.Seq ≤ f.since
  buffered : matching f.since f.sess.chunks = matching f.since f.produced
  cursor : f.since < f.sess.nextSeq
  last : (f.since = 0 ∧ f.acc = []) ∨ ∃ c ∈ f.acc, c.Seq = f.since

/-- A short interleaving: two appends, a read capped at one byte, a third
append, an uncapped read, and a read iteration that times out. -/
def demoEvents : List Event :=
  [Event.append [104, 105] 10, Event.append [10] 20, Event.read 1 0 0 25 false,
   Event.append [111, 107, 10] 30, Event.read 0 0 0 35 false,
   Event.read 0 100000000 135000000 140000000 false]

/-- A manager holding a session just opened, with nothing read from its PTY yet. -/
def freshManager : PTYManager :=
  { NewPTYManager with sessions := [("a1b2c3d4", newSession "a1b2c3d4" true)] }

/-- The new session as an iteration of the read loop finds it at clock `now`:
open, with an empty buffer. -/
def idleTick (now : Int) : Tick :=
  { sess := newSession "a1b2c3d4" true, now := now, closedLate := false }

/-- The session after three reads of the PTY, as found at clock `now`. -/
def dataTick (now : Int) : Tick :=
  { sess := demoSession, now := now, closedLate := false }

/-- The session with an empty buffer after end-of-file, as found at clock `now`. -/
def closedTick (now : Int) : Tick :=
  { sess := { newSession "a1b2c3d4" true with closed := true, closedCh := true },
    now := now, closedLate := true }

/-! ### The manager operations

The operating system and the random generator are outside the program: what
they answer is an argument of the operation, and what the operation asks of
them is returned as a list of `OSAction`s, in order. -/

/-- The fields of `exec.Cmd` that `PTYOpen` sets.  `env` is `cmd.Env`, a slice:
`none` is the nil slice. -/
structure Cmd where
  path : String
  args : List String
  dir : String
  env : Option (List String)
deriving DecidableEq, Repr

/-- The environment of the child that `os/exec` starts for a command, as its
documentation of `Cmd.Env` states: "If Env is nil, the new process uses the
current process's environment."  The entry `PWD` that `os/exec` adds to an
inherited environment when `Dir` is set is not modelled: the function is exact
for a command with an empty `Dir`. -/
def Cmd.environ (c : Cmd) (daemonEnv : List String) : List String :=
  match c.env with
  | none => daemonEnv
  | some e => e

/-- A request to the operating system made by a manager operation. -/
inductive OSAction where
  | start (cmd : Cmd)
  | setsize (rows cols : Nat)
  | mkdirAll (path : String)
  | openLog (path : String)
  | write (data : List Byte)
  | signalInterrupt
  | kill
  | closePTY
  | closeLog
deriving DecidableEq, Repr

/-- The Go conversion `uint16(x)` of an `int`: the low 16 bits. -/
def toUint16 (x : Int) : Nat := (x % 65536).toNat

/-- The environment slice built by `PTYOpen` (pty.go lines 71-75): `var envv
[]string` is nil and stays nil unless the loop appends; `env` lists the entries
of the map in the order `range` visits them, `none` being the nil map. -/
def ptyOpenEnv (env : Option (List (String × String))) : Option (List String) :=
  (env.getD []).foldl
    (fun (envv : Option (List String)) kv => some (envv.getD [] ++ [kv.1 ++ "=" ++ kv.2])) none

/-- The environment slice built by `ShellRun` (shellrun.go lines 59-68): a
non-nil slice in both branches. -/
def shellRunEnv (env : Option (List (String × String))) : Option (List String) :=
  match env with
  | some entries => some (entries.foldl (fun e kv => e ++ [kv.1 ++ "=" ++ kv.2]) [])
  | none => some []

/-- The constant `letters` of `randID`. -/
def letters : List Char := "abcdefghijklmnopqrstuvwxyz0123456789".toList

/-- The source function `randID` (pty.go lines 262-269).  `draw i` is the result
of the `i`-th call of `rand.Intn(len(letters))`, which lies in `[0, 36)`. -/
def randID (draw : Nat → Fin 36) : String :=
  String.mk ((List.range 8).map (fun i => letters.getD (draw i).val 'a'))

/-- What the outside world answers during one `PTYOpen`: the error of
`ptylib.Start`, if any; the results of the calls of `rand.Intn`; whether
`os.OpenFile` opens the log file. -/
structure OpenWorld where
  startErr : Option String
  draw : Nat → Fin 36
  logOpens : Bool

/-- What `PTYOpen` returns and does: the manager after the call, the returned
id and error, and the requests made to the operating system. -/
structure OpenResult where
  mgr : PTYManager
  id : String
  err : Option String
  actions : List OSAction
deriving DecidableEq, Repr

/-- The Go statement `m.sessions[id] = s`. -/
def PTYManager.insert (m : PTYManager) (id : String) (s : PTYSession) : PTYManager :=
  { m with sessions := (id, s) :: m.sessions.filter (fun p => p.1 != id) }

/-- The Go statement `delete(m.sessions, id)`. -/
def PTYManager.delete (m : PTYManager) (id : String) : PTYManager :=
  { m with sessions := m.sessions.filter (fun p => p.1 != id) }

/-- The source method `PTYManager.PTYOpen` (pty.go lines 62-117). -/
def PTYOpen (m : PTYManager) (argv : List String) (rows cols : Int) (cwd : String)
    (env : Option (List (String × String))) (w : OpenWorld) : OpenResult :=
  match argv with
  | [] => { mgr := m, id := "", err := some "argv must not be empty", actions := [] }
  | name :: args =>
    let cmd : Cmd := { path := name, args := name :: args, dir := cwd, env := ptyOpenEnv env }
    match w.startErr with
    | some e => { mgr := m, id := "", err := some e, actions := [OSAction.start cmd] }
    | none =>
      let rows1 := if rows ≤ 0 then 40 else rows
      let cols1 := if cols ≤ 0 then 120 else cols
      let id := randID w.draw
      let logging : Bool := m.baseDir != ""
      let s := newSession id (logging && w.logOpens)
      { mgr := m.insert id s
        id := id
        err := none
        actions :=
          [OSAction.start cmd, OSAction.setsize (toUint16 rows1) (toUint16 cols1)] ++
          (if logging then
            [OSAction.mkdirAll m.baseDir, OSAction.openLog (m.baseDir ++ "/" ++ id ++ ".log")]
           else []) }

/-- What `PTYSend` returns and does. -/
structure SendResult where
  n : Nat
  err : Option String
  actions : List OSAction
deriving DecidableEq, Repr

/-- The source method `PTYManager.PTYSend` (pty.go lines 184-190); `wr` is what
`s.pty.Write(data)` answers. -/
def PTYSend (m : PTYManager) (id : String) (data : List Byte) (wr : Nat × Option String) :
    SendResult :=
  match m.get id with
  | none => { n := 0, err := some "no such session", actions := [] }
  | some _ => { n := wr.1, err := wr.2, actions := [OSAction.write data] }

/-- What `PTYResize` and `PTYClose` return and do. -/
structure CallResult where
  err : Option String
  actions : List OSAction
deriving DecidableEq, Repr

/-- The source method `PTYManager.PTYResize` (pty.go lines 230-236); `osErr` is
what `ptylib.Setsize` answers. -/
def PTYResize (m : PTYManager) (id : String) (rows cols : Int) (osErr : Option String) :
    CallResult :=
  match m.get id with
  | none => { err := some "no such session", actions := [] }
  | some _ => { err := osErr, actions := [OSAction.setsize (toUint16 rows) (toUint16 cols)] }

/-- The source method `PTYManager.PTYClose` (pty.go lines 239-254): the manager
after the call and the result.  `exitedInGrace` tells whether `closedCh` was
closed within the 300 ms of the `select`. -/
def PTYClose (m : PTYManager) (id : String) (exitedInGrace : Bool) : PTYManager × CallResult :=
  match m.get id with
  | none => (m, { err := none, actions := [] })
  | some s =>
    (m.delete id,
     { err := none
       actions :=
        [OSAction.signalInterrupt] ++ (if exitedInGrace then [] else [OSAction.kill]) ++
        [OSAction.closePTY] ++ (if s.logf.isSome then [OSAction.closeLog] else []) })

/-- The source method `PTYManager.LogPath` (pty.go lines 289-295). -/
def LogPath (m : PTYManager) (id : String) : String × Bool :=
  match m.get id with
  | none => ("", false)
  | some _ =>
    if m.baseDir = "" then ("", false)
    else (m.baseDir ++ "/" ++ id ++ ".log", true)

/-- A call of one of the four operations that take a session id, with what the
outside world answers to it. -/
inductive Call where
  | send (id : String) (data : List Byte) (wr : Nat × Option String)
  | read (id : String) (sinceSeq : Nat) (maxBytes timeout start : Int) (ticks : List Tick)
  | resize (id : String) (rows cols : Int) (osErr : Option String)
  | close (id : String) (exitedInGrace : Bool)

/-- The manager after a call.  `PTYSend`, `PTYRead` and `PTYResize` only look
the session up (`m.get`); `PTYClose` alone writes to `m.sessions`. -/
def PTYManager.after (m : PTYManager) : Call → PTYManager
  | Call.send _ _ _ => m
  | Call.read _ _ _ _ _ _ => m
  | Call.resize _ _ _ _ => m
  | Call.close id exitedInGrace => (PTYClose m id exitedInGrace).1

/-! ### The session tasks -/

/-- The error of a read of the PTY master, as `reader` tells them apart:
`io.EOF` or anything else. -/
inductive ReadErr where
  | eof
  | other (msg : String)
deriving DecidableEq, Repr

/-- The result of a piece of code that may panic: the session state reached, and
whether a panic stopped the program there. -/
structure Outcome where
  sess : PTYSession
  panicked : Bool
deriving DecidableEq, Repr

/-- The Go statement `close(s.closedCh)`, which panics on a closed channel. -/
def closeCh (s : PTYSession) : Outcome :=
  if s.closedCh then { sess := s, panicked := true }
  else { sess := { s with closedCh := true }, panicked := false }

/-- The result of one iteration of the loop of `reader`: the outcome, and
whether the task returns. -/
structure ReaderOut where
  out : Outcome
  exits : Bool
deriving DecidableEq, Repr

/-- One iteration of the loop of `reader` (pty.go lines 122-148) for a read that
yields `data` (`buf[:n]`) and `err`; `now` is the clock reading stored in the
chunk and `logged` the number of bytes the best-effort log write gets written. -/
def readerIter (s : PTYSession) (data : List Byte) (err : Option ReadErr) (now : Int)
    (logged : Nat) : ReaderOut :=
  let s1 :=
    if data.length > 0 then
      let s0 := appendChunk s data now
      { s0 with logf := s0.logf.map (fun f => f ++ data.take logged) }
    else s
  match err with
  | none => { out := { sess := s1, panicked := false }, exits := false }
  | some ReadErr.eof => { out := closeCh { s1 with closed := true }, exits := true }
  | some (ReadErr.other _) => { out := { sess := s1, panicked := false }, exits := true }

/-- The source method `PTYSession.waiter` (pty.go lines 151-166) once `cmd.Wait`
has returned; `rc` is what `exitCodeFromWait` computes. -/
def waiter (s : PTYSession) (rc : Int) : PTYSession :=
  let s1 := if s.exitRC = none then { s with exitRC := some rc } else s
  let s2 := { s1 with closed := true }
  if s2.closedCh then s2 else { s2 with closedCh := true }

/-- A step on a session: an iteration of the reader, the reaper after the exit
of the child, or an iteration of a `PTYRead`. -/
inductive SessStep where
  | readerRead (data : List Byte) (err : Option ReadErr) (now : Int) (logged : Nat)
  | reaperExit (rc : Int)
  | read (sinceSeq : Nat) (maxBytes timeout deadline now : Int) (closedLate : Bool)
deriving DecidableEq, Repr

/-- The effect of a step on the session state.  `PTYRead` only observes. -/
def PTYSession.step (s : PTYSession) : SessStep → Outcome
  | SessStep.readerRead data err now logged => (readerIter s data err now logged).out
  | SessStep.reaperExit rc => { sess := waiter s rc, panicked := false }
  | SessStep.read _ _ _ _ _ _ => { sess := s, panicked := false }

/-- The session states passed through by a sequence of steps, the first state
included; a panic ends the program, and the sequence, at the state it leaves. -/
def PTYSession.states (s : PTYSession) : List SessStep → List PTYSession
  | [] => [s]
  | e :: es =>
    if (s.step e).panicked then [s, (s.step e).sess]
    else s :: PTYSession.states (s.step e).sess es

/-- The later of two states keeps a closed flag that is set and an exit code
that is recorded. -/
def Keeps (a b : PTYSession) : Prop :=
  (a.closed = true → b.closed = true) ∧ ∀ rc, a.exitRC = some rc → b.exitRC = some rc

/-- A world in which the child starts, every draw of the random generator is 0
and the log file opens. -/
def zeroWorld : OpenWorld := { startErr := none, draw := fun _ => 0, logOpens := true }

/-- A world as `zeroWorld`, but in which the log file cannot be opened. -/
def noLogWorld : OpenWorld := { startErr := none, draw := fun _ => 0, logOpens := false }

/-- A manager holding, under the id "aaaaaaaa", a session that has output buffered. -/
def busyManager : PTYManager :=
  { NewPTYManager with
    sessions := [("aaaaaaaa", appendAll (newSession "aaaaaaaa" true) [([104, 105], 10)])] }

/-- No append of the sequence evicts a chunk with `Seq` above `sinceSeq`: the
buffered chunks above `sinceSeq` are the same after `enforceCap` as before it.
The appends are given, as for `appendAll`, by the bytes read and the clock. -/
def EvictsNoneAbove (sinceSeq : Nat) : PTYSession → List (List Byte × Int) → Prop
  | _, [] => True
  | s, r :: rs =>
    matching sinceSeq (appendChunk s r.1 r.2).chunks =
      matching sinceSeq (pushChunk s r.1 r.2).chunks ∧
    EvictsNoneAbove sinceSeq (appendChunk s r.1 r.2) rs

instance decEvictsNoneAbove (sinceSeq : Nat) :
    (s : PTYSession) → (reads : List (List Byte × Int)) →
    Decidable (EvictsNoneAbove sinceSeq s reads)
  | _, [] => isTrue trivial
  | s, r :: rs =>
    haveI := decEvictsNoneAbove sinceSeq (appendChunk s r.1 r.2) rs
    inferInstanceAs (Decidable
      (matching sinceSeq (appendChunk s r.1 r.2).chunks =
        matching sinceSeq (pushChunk s r.1 r.2).chunks ∧
      EvictsNoneAbove sinceSeq (appendChunk s r.1 r.2) rs))

/-- One read of the PTY master as the reader meets it: the bytes read
(`buf[:n]`), the error, the clock reading, and how many of the bytes the
best-effort write to the log file gets written. -/
structure MasterRead where
  data : List Byte
  err : Option ReadErr
  now : Int
  logged : Nat
deriving DecidableEq, Repr

/-- What a run of the reader task leaves: the outcome, every chunk it appended,
in order, and whether the task has returned (or the program panicked). -/
structure ReaderRun where
  out : Outcome
  produced : List Chunk
  exited : Bool
deriving DecidableEq, Repr

/-- The source method `PTYSession.reader` (pty.go lines 119-149) over the reads
of the PTY master that it gets: it iterates until an error makes it return. -/
def reader (s : PTYSession) : List MasterRead → ReaderRun
  | [] => { out := { sess := s, panicked := false }, produced := [], exited := false }
  | r :: rs =>
    let it := readerIter s r.data r.err r.now r.logged
    let new := if r.data.length > 0 then [newChunk s r.data r.now] else []
    if it.exits || it.out.panicked then { out := it.out, produced := new, exited := true }
    else
      let rest := reader it.out.sess rs
      { out := rest.out, produced := new ++ rest.produced, exited := rest.exited }

/-- Three reads of the PTY master, the last of which meets end-of-file; every
write to the log file is complete. -/
def demoReads : List MasterRead :=
  [{ data := [104, 105], err := none, now := 10, logged := 2 },
   { data := [10], err := none, now := 20, logged := 1 },
   { data := [111, 107, 10], err := some ReadErr.eof, now := 30, logged := 3 }]

/-- The reads of a child that floods its terminal: 257 full reads of 4096 bytes,
1052672 bytes in all. -/
def floodReads : List (List Byte × Int) :=
  List.replicate 257 (List.replicate 4096 0, 0)

/-! ### The HTTP handlers (internal/server/server.go) -/

/-- The constant `http.StatusOK`. -/
def StatusOK : Nat := 200

/-- The constant `http.StatusBadRequest`. -/
def StatusBadRequest : Nat := 400

/-- The constant `http.StatusMethodNotAllowed`. -/
def StatusMethodNotAllowed : Nat := 405

/-- What a handler writes: the status code and, when the body is an error
object, its "error" member. -/
structure HTTPReply where
  status : Nat
  error : Option String
deriving DecidableEq, Repr

/-- The request body `api.PTYOpenRequest`; `Env` is `none` for the nil map. -/
structure PTYOpenRequest where
  Argv : List String
  Rows : Int
  Cols : Int
  Cwd : String
  Env : Option (List (String × String))
deriving DecidableEq, Repr

/-- The request body `api.PTYSendRequest`. -/
structure PTYSendRequest where
  ID : String
  DataB64 : String
deriving DecidableEq, Repr

/-- The request body `api.PTYReadRequest`. -/
structure PTYReadRequest where
  ID : String
  SinceSeq : Nat
  MaxBytes : Int
  TimeoutMS : Int
deriving DecidableEq, Repr

/-- The request body `api.PTYResizeRequest`. -/
structure PTYResizeRequest where
  ID : String
  Rows : Int
  Cols : Int
deriving DecidableEq, Repr

/-- The source method `Server.handlePTYOpen` (server.go lines 83-96): the manager
afterwards and the reply.  `body` is the result of decoding the JSON body. -/
def handlePTYOpen (m : PTYManager) (method : String) (body : Except String PTYOpenRequest)
    (w : OpenWorld) : PTYManager × HTTPReply :=
  if method != "POST" then (m, { status := StatusMethodNotAllowed, error := none })
  else
    match body with
    | Except.error e => (m, { status := StatusBadRequest, error := some e })
    | Except.ok req =>
      match (PTYOpen m req.Argv req.Rows req.Cols req.Cwd req.Env w).err with
      | some e =>
        ((PTYOpen m req.Argv req.Rows req.Cols req.Cwd req.Env w).mgr,
          { status := StatusBadRequest, error := some e })
      | none =>
        ((PTYOpen m req.Argv req.Rows req.Cols req.Cwd req.Env w).mgr,
          { status := StatusOK, error := none })

/-- The source method `Server.handlePTYSend` (server.go lines 98-116); `decoded`
is the result of the base64 decoding of `req.DataB64`, `none` when it fails. -/
def handlePTYSend (m : PTYManager) (method : String) (body : Except String PTYSendRequest)
    (decoded : Option (List Byte)) (wr : Nat × Option String) : HTTPReply :=
  if method != "POST" then { status := StatusMethodNotAllowed, error := none }
  else
    match body with
    | Except.error e => { status := StatusBadRequest, error := some e }
    | Except.ok req =>
      match decoded with
      | none => { status := StatusBadRequest, error := some "invalid data base64" }
      | some b =>
        match (PTYSend m req.ID b wr).err with
        | some e => { status := StatusBadRequest, error := some e }
        | none => { status := StatusOK, error := none }

/-- An `int64` result of Go arithmetic, which wraps around: the exact value
modulo 2^64, taken in the signed range. -/
def wrapInt64 (x : Int) : Int :=
  (x + 9223372036854775808) % 18446744073709551616 - 9223372036854775808

/-- The source method `Server.handlePTYRead` (server.go lines 118-139); `none`
while the call of `PTYRead` has not returned.  The timeout is the `int64`
product `time.Duration(req.TimeoutMS) * time.Millisecond` of line 125. -/
def handlePTYRead (m : PTYManager) (method : String) (body : Except String PTYReadRequest)
    (start : Int) (ticks : List Tick) : Option HTTPReply :=
  if method != "POST" then some { status := StatusMethodNotAllowed, error := none }
  else
    match body with
    | Except.error e => some { status := StatusBadRequest, error := some e }
    | Except.ok req =>
      match PTYRead m req.ID req.SinceSeq req.MaxBytes (wrapInt64 (req.TimeoutMS * 1000000)) start ticks with
      | none => none
      | some r =>
        match r.err with
        | some e => some { status := StatusBadRequest, error := some e }
        | none => some { status := StatusOK, error := none }

/-- The source method `Server.handlePTYResize` (server.go lines 141-153). -/
def handlePTYResize (m : PTYManager) (method : String) (body : Except String PTYResizeRequest)
    (osErr : Option String) : HTTPReply :=
  if method != "POST" then { status := StatusMethodNotAllowed, error := none }
  else
    match body with
    | Except.error e => { status := StatusBadRequest, error := some e }
    | Except.ok req =>
      match (PTYResize m req.ID req.Rows req.Cols osErr).err with
      | some e => { status := StatusBadRequest, error := some e }
      | none => { status := StatusOK, error := none }

/-- A world in which the child cannot be started. -/
def spawnFailWorld : OpenWorld :=
  { startErr := some "fork/exec /no/such/program: no such file or directory"
    draw := fun _ => 0
    logOpens := true }

/-! ### The non-PTY run path (internal/term/shellrun.go) -/

/-- The source type `RunRequest`; `Env` and `Stdin` are `none` when nil, and
`Timeout` is in nanoseconds. -/
structure RunRequest where
  Argv : List String
  Cwd : String
  Env : Option (List (String × String))
  Timeout : Int
  Stdin : Option (List Byte)
deriving DecidableEq, Repr

/-- The source type `RunResult`. -/
structure RunResult where
  RC : Int
  Stdout : List Byte
  Stderr : List Byte
  Duration : Int
  Cwd : String
deriving DecidableEq, Repr

/-- The error that `cmd.Run()` returns, as `ShellRun` tells them apart: an
`*exec.ExitError`, with the `ExitStatus()` of its `Sys()` value when that value
has the method, or any other error; `msg` is the text of `Error()`. -/
inductive RunErr where
  | exit (status : Option Int) (msg : String)
  | other (msg : String)
deriving DecidableEq, Repr

/-- The text of `Error()` of a run error. -/
def RunErr.msg : RunErr → String
  | RunErr.exit _ m => m
  | RunErr.other m => m

/-- What the outside world answers during one `ShellRun`: the result of
`os.Getwd`, the error of `cmd.Run()`, whether `ctx.Err()` is the exceeded
deadline afterwards, the output captured, the time taken, and the text of
`req.Timeout` under the verb `%s`. -/
structure RunWorld where
  getwd : Option String
  runErr : Option RunErr
  deadlineExceeded : Bool
  stdout : List Byte
  stderr : List Byte
  duration : Int
  timeoutText : String
deriving DecidableEq, Repr

/-- The source function `exitCodeFromError` (shellrun.go lines 108-114), on the
`ExitStatus()` of the error when it has one. -/
def exitCodeFromError (status : Option Int) : Int :=
  match status with
  | some st => st
  | none => 1

/-- What `ShellRun` returns and does. -/
structure ShellRunOut where
  res : RunResult
  err : Option String
  actions : List OSAction
deriving DecidableEq, Repr

/-- The source function `ShellRun` (shellrun.go lines 32-106). -/
def ShellRun (req : RunRequest) (w : RunWorld) : ShellRunOut :=
  let res0 : RunResult := { RC := 0, Stdout := [], Stderr := [], Duration := 0, Cwd := "" }
  match req.Argv with
  | [] => { res := res0, err := some "argv must not be empty", actions := [] }
  | name :: args =>
    if name = "" then { res := res0, err := some "argv must not be empty", actions := [] }
    else
      let cmd : Cmd :=
        { path := name, args := name :: args, dir := req.Cwd, env := shellRunEnv req.Env }
      let res1 : RunResult :=
        { res0 with Cwd := if req.Cwd != "" then req.Cwd else w.getwd.getD "" }
      let res2 : RunResult :=
        { res1 with Duration := w.duration, Stdout := w.stdout, Stderr := w.stderr }
      match w.runErr with
      | none => { res := { res2 with RC := 0 }, err := none, actions := [OSAction.start cmd] }
      | some e =>
        if w.deadlineExceeded then
          { res := { res2 with RC := match e with
                                     | RunErr.exit st _ => exitCodeFromError st
                                     | RunErr.other _ => 124 }
            err := some ("timeout after " ++ w.timeoutText ++ ": " ++ e.msg)
            actions := [OSAction.start cmd] }
        else
          match e with
          | RunErr.exit st _ =>
            { res := { res2 with RC := exitCodeFromError st }, err := none,
              actions := [OSAction.start cmd] }
          | RunErr.other m =>
            { res := { res2 with RC := 127 }, err := some m, actions := [OSAction.start cmd] }

/-- A request to run `/bin/sh -c "exit 3"` with a timeout of 2 s. -/
def demoRun : RunRequest :=
  { Argv := ["/bin/sh", "-c", "exit 3"], Cwd := "/tmp", Env := none, Timeout := 2000000000,
    Stdin := none }

/-- A world in which the process of `demoRun` exits with status 3 in time. -/
def exitThreeWorld : RunWorld :=
  { getwd := some "/", runErr := some (RunErr.exit (some 3) "exit status 3"),
    deadlineExceeded := false, stdout := [111], stderr := [101], duration := 1000000,
    timeoutText := "2s" }

/-! ### Accesses to the guarded fields

Each piece of code that touches the fields `chunks`, `nextSeq`, `closed`,
`exitRC` of a session is listed as the locks, unlocks and field accesses it
performs, in program order. -/

/-- A field of `PTYSession` that the session mutex is there to guard. -/
inductive Field where
  | chunks
  | nextSeq
  | closed
  | exitRC
deriving DecidableEq, Repr

/-- One step of a task on the session mutex or on a guarded field. -/
inductive MemOp where
  | lock
  | unlock
  | read (f : Field)
  | write (f : Field)
deriving DecidableEq, Repr

/-- Whether every access of the list is made with the mutex held, `held` telling
whether it is held at the start. -/
def guardedFrom : Bool → List MemOp → Bool
  | _, [] => true
  | _, MemOp.lock :: ops => guardedFrom true ops
  | _, MemOp.unlock :: ops => guardedFrom false ops
  | held, MemOp.read _ :: ops => held && guardedFrom held ops
  | held, MemOp.write _ :: ops => held && guardedFrom held ops

/-- Every access of the list is made between a lock and the next unlock. -/
def Guarded (ops : List MemOp) : Prop := guardedFrom false ops = true

instance (ops : List MemOp) : Decidable (Guarded ops) := by
  unfold Guarded; infer_instance

/-- The accesses of one iteration of the loop of `PTYRead` (pty.go lines
200-225), along the branches of `readIter`: the snapshot under the lock, then
the unlock; on the timeout branch line 221 reads `s.closed` after line 220 has
unlocked. -/
def readIterOps (sinceSeq : Nat) (maxBytes : Int) (timeout deadline : Int) (t : Tick) :
    List MemOp :=
  let out := collect sinceSeq maxBytes t.sess.chunks 0
  let closed := t.sess.closed
  [MemOp.lock, MemOp.read Field.chunks, MemOp.read Field.closed] ++
  (if out.length > 0 ∨ closed = true then [MemOp.unlock]
   else if timeout > 0 ∧ t.now > deadline then [MemOp.unlock, MemOp.read Field.closed]
   else [MemOp.unlock])

/-- The accesses of `enforceCap` (pty.go lines 168-179), called with the mutex
held: the loop reads `chunks`, and writes it when it truncates. -/
def enforceCapOps (s : PTYSession) : List MemOp :=
  [MemOp.read Field.chunks] ++
  (if (enforceCap s).chunks.length < s.chunks.length then [MemOp.write Field.chunks] else [])

/-- The accesses of one iteration of the loop of `reader` (pty.go lines
122-148), along the branches of `readerIter`. -/
def readerIterOps (s : PTYSession) (data : List Byte) (err : Option ReadErr) (now : Int) :
    List MemOp :=
  (if data.length > 0 then
    [MemOp.lock, MemOp.read Field.chunks, MemOp.read Field.nextSeq, MemOp.write Field.chunks,
     MemOp.read Field.nextSeq, MemOp.write Field.nextSeq] ++
    enforceCapOps (pushChunk s data now) ++ [MemOp.unlock]
   else []) ++
  (match err with
   | some ReadErr.eof => [MemOp.lock, MemOp.write Field.closed, MemOp.unlock]
   | _ => [])

/-- The accesses of `waiter` (pty.go lines 153-165). -/
def waiterOps (s : PTYSession) : List MemOp :=
  [MemOp.lock, MemOp.read Field.exitRC] ++
  (if s.exitRC = none then [MemOp.write Field.exitRC] else []) ++
  [MemOp.write Field.closed, MemOp.unlock]

/-! ## The collection loop -/

theorem totalBytes_nil : totalBytes [] = 0 := rfl

theorem totalBytes_cons (c : Chunk) (cs : List Chunk) :
    totalBytes (c :: cs) = c.Data.length + totalBytes cs := by
  simp [totalBytes]

theorem totalBytes_append (xs ys : List Chunk) :
    totalBytes (xs ++ ys) = totalBytes xs + totalBytes ys := by
  simp [totalBytes]

theorem matching_nil (n : Nat) : matching n [] = [] := rfl

theorem matching_cons_le (n : Nat) (c : Chunk) (cs : List Chunk) (h : c.Seq ≤ n) :
    matching n (c :: cs) = matching n cs := by
  simp [matching, List.filter_cons, Nat.not_lt.mpr h]

theorem matching_cons_gt (n : Nat) (c : Chunk) (cs : List Chunk) (h : ¬ c.Seq ≤ n) :
    matching n (c :: cs) = c :: matching n cs := by
  simp [matching, List.filter_cons, Nat.lt_of_not_le h]

/-- The collected chunks are an initial segment of the matching chunks. -/
theorem collect_isPrefix (n : Nat) (mb : Int) (cs : List Chunk) (b : Nat) :
    collect n mb cs b <+: matching n cs := by
  induction cs generalizing b with
  | nil => simp [collect, matching]
  | cons c rest ih =>
    by_cases hc : c.Seq ≤ n
    · simp only [collect, hc, if_true, matching_cons_le n c rest hc]
      exact ih b
    · rw [matching_cons_gt n c rest hc]
      simp only [collect, hc, if_false]
      split
      · exact List.cons_prefix_cons.mpr ⟨rfl, List.nil_prefix⟩
      · exact List.cons_prefix_cons.mpr ⟨rfl, ih _⟩

/-- With the cap disabled, or not reached by all matching chunks together, the
loop collects every matching chunk. -/
theorem collect_eq_matching (n : Nat) (mb : Int) (cs : List Chunk) (b : Nat)
    (h : mb ≤ 0 ∨ ((b + totalBytes (matching n cs) : Nat) : Int) < mb) :
    collect n mb cs b = matching n cs := by
  induction cs generalizing b with
  | nil => simp [collect, matching]
  | cons c rest ih =>
    by_cases hc : c.Seq ≤ n
    · rw [matching_cons_le n c rest hc] at h ⊢
      simp only [collect, hc, if_true]
      exact ih b h
    · rw [matching_cons_gt n c rest hc] at h ⊢
      rw [totalBytes_cons] at h
      simp only [collect, hc, if_false]
      have hno : ¬ (mb > 0 ∧ ((b + c.Data.length : Nat) : Int) ≥ mb) := by
        rintro ⟨h1, h2⟩
        rcases h with h | h
        · omega
        · push_cast at h h2; omega
      rw [if_neg hno]
      congr 1
      apply ih
      rcases h with h | h
      · exact Or.inl h
      · right; push_cast at h ⊢; omega

/-- When the matching chunks reach the cap, so do the collected ones. -/
theorem collect_reaches (n : Nat) (mb : Int) (cs : List Chunk) (b : Nat)
    (hpos : 0 < mb) (h : mb ≤ ((b + totalBytes (matching n cs) : Nat) : Int)) (hb : (b : Int) < mb) :
    mb ≤ ((b + totalBytes (collect n mb cs b) : Nat) : Int) := by
  induction cs generalizing b with
  | nil => simp [matching, totalBytes] at h; omega
  | cons c rest ih =>
    by_cases hc : c.Seq ≤ n
    · rw [matching_cons_le n c rest hc] at h
      simp only [collect, hc, if_true]
      exact ih b h hb
    · rw [matching_cons_gt n c rest hc, totalBytes_cons] at h
      simp only [collect, hc, if_false]
      by_cases hx : mb > 0 ∧ ((b + c.Data.length : Nat) : Int) ≥ mb
      · rw [if_pos hx, totalBytes_cons, totalBytes_nil]
        have := hx.2
        push_cast at this ⊢; omega
      · rw [if_neg hx, totalBytes_cons]
        have hlt : ((b + c.Data.length : Nat) : Int) < mb := by
          by_contra hcon
          exact hx ⟨hpos, by omega⟩
        have := ih (b + c.Data.length) (by push_cast at h ⊢; omega) hlt
        push_cast at this ⊢; omega

/-- No initial segment of the matching chunks shorter than the collected one
reaches the cap. -/
theorem collect_shortest (n : Nat) (mb : Int) (cs : List Chunk) (b : Nat)
    (hb : (b : Int) < mb) (p : List Chunk) (hp : p <+: matching n cs)
    (hreach : mb ≤ ((b + totalBytes p : Nat) : Int)) :
    (collect n mb cs b).length ≤ p.length := by
  induction cs generalizing b p with
  | nil =>
    simp [collect]
  | cons c rest ih =>
    by_cases hc : c.Seq ≤ n
    · rw [matching_cons_le n c rest hc] at hp
      simp only [collect, hc, if_true]
      exact ih b hb p hp hreach
    · rw [matching_cons_gt n c rest hc] at hp
      simp only [collect, hc, if_false]
      rcases List.prefix_cons_iff.mp hp with hnil | ⟨q, hq, hq2⟩
      · subst hnil
        simp [totalBytes] at hreach; omega
      · subst hq
        rw [totalBytes_cons] at hreach
        by_cases hx : mb > 0 ∧ ((b + c.Data.length : Nat) : Int) ≥ mb
        · rw [if_pos hx]; simp
        · rw [if_neg hx]
          have hlt : ((b + c.Data.length : Nat) : Int) < mb := by
            by_contra hcon
            exact hx ⟨by omega, by omega⟩
          have := ih (b + c.Data.length) hlt q hq2 (by push_cast at hreach ⊢; omega)
          simpa using this

/-- The collected chunks without the last one stay strictly below the cap. -/
theorem collect_dropLast_lt (n : Nat) (mb : Int) (cs : List Chunk) (b : Nat)
    (hb : (b : Int) < mb) :
    ((b + totalBytes (collect n mb cs b).dropLast : Nat) : Int) < mb := by
  induction cs generalizing b with
  | nil => simpa [collect, totalBytes] using hb
  | cons c rest ih =>
    by_cases hc : c.Seq ≤ n
    · simp only [collect, hc, if_true]
      exact ih b hb
    · simp only [collect, hc, if_false]
      by_cases hx : mb > 0 ∧ ((b + c.Data.length : Nat) : Int) ≥ mb
      · rw [if_pos hx]; simpa [totalBytes] using hb
      · rw [if_neg hx]
        have hlt : ((b + c.Data.length : Nat) : Int) < mb := by
          by_contra hcon
          exact hx ⟨by omega, by omega⟩
        have h1 := ih (b + c.Data.length) hlt
        cases hcol : collect n mb rest (b + c.Data.length) with
        | nil => simpa [totalBytes] using hb
        | cons d ds =>
          rw [hcol] at h1
          rw [List.dropLast_cons₂, totalBytes_cons]
          push_cast at h1 ⊢; omega

/-- The loop collects something as soon as one chunk matches. -/
theorem collect_ne_nil (n : Nat) (mb : Int) (cs : List Chunk) (b : Nat)
    (h : matching n cs ≠ []) : collect n mb cs b ≠ [] := by
  induction cs generalizing b with
  | nil => simp [matching] at h
  | cons c rest ih =>
    by_cases hc : c.Seq ≤ n
    · rw [matching_cons_le n c rest hc] at h
      simp only [collect, hc, if_true]
      exact ih b h
    · simp only [collect, hc, if_false]
      split <;> simp

theorem mem_matching {n : Nat} {cs : List Chunk} {c : Chunk} :
    c ∈ matching n cs ↔ c ∈ cs ∧ n < c.Seq := by
  simp [matching]

theorem matching_sublist (n : Nat) (cs : List Chunk) : (matching n cs).Sublist cs :=
  List.filter_sublist cs

/-- What an iteration of the read loop returns is what the collection loop
collected from the buffer it saw, on both return paths. -/
theorem readIter_ret_chunks {n : Nat} {mb timeout deadline : Int} {t : Tick} {r : ReadResult}
    (h : readIter n mb timeout deadline t = Iter.ret r) :
    r.chunks = collect n mb t.sess.chunks 0 := by
  unfold readIter at h
  simp only at h
  split at h
  · cases h; rfl
  · rename_i hno
    split at h
    · cases h
      have : ¬ (collect n mb t.sess.chunks 0).length > 0 := fun hh => hno (Or.inl hh)
      have := List.length_eq_zero.mp (Nat.eq_zero_of_not_pos this)
      simp [this]
    · cases h

/-! ## Eviction and the reader append -/

theorem capSize_eq : capSize = 1048576 := by decide

theorem enforceCapLoop_eq_drop (cs : List Chunk) (k total : Nat) :
    ∃ j, j ≤ k ∧ enforceCapLoop cs k total = cs.drop j := by
  induction k generalizing total with
  | zero => exact ⟨0, le_refl _, by simp [enforceCapLoop]⟩
  | succ i ih =>
    simp only [enforceCapLoop]
    split
    · exact ⟨i + 1, le_refl _, rfl⟩
    · obtain ⟨j, hj, h⟩ := ih (total + ((cs.get? i).map (fun c => c.Data.length)).getD 0)
      exact ⟨j, Nat.le_succ_of_le hj, h⟩

theorem totalBytes_drop_succ (cs : List Chunk) (i : Nat) (hi : i < cs.length) :
    totalBytes (cs.drop i) =
      ((cs.get? i).map (fun c => c.Data.length)).getD 0 + totalBytes (cs.drop (i + 1)) := by
  rw [List.drop_eq_getElem_cons hi, totalBytes_cons]
  simp [List.getElem?_eq_getElem hi]

/-- The loop keeps a tail of the buffer whose total is within the cap. -/
theorem enforceCapLoop_le_cap (cs : List Chunk) (k total : Nat) (hk : k ≤ cs.length)
    (htot : total = totalBytes (cs.drop k)) (hle : total ≤ capSize) :
    totalBytes (enforceCapLoop cs k total) ≤ capSize := by
  induction k generalizing total with
  | zero =>
    simp only [enforceCapLoop]
    simpa [htot] using hle
  | succ i ih =>
    simp only [enforceCapLoop]
    split
    · rw [← htot]; exact hle
    · rename_i hno
      apply ih _ (Nat.le_of_succ_le hk)
      · rw [totalBytes_drop_succ cs i hk, htot]; omega
      · omega

theorem enforceCap_chunks_eq_drop (s : PTYSession) :
    ∃ j, (enforceCap s).chunks = s.chunks.drop j := by
  obtain ⟨j, _, h⟩ := enforceCapLoop_eq_drop s.chunks s.chunks.length 0
  exact ⟨j, h⟩

theorem enforceCap_nextSeq (s : PTYSession) : (enforceCap s).nextSeq = s.nextSeq := rfl

theorem enforceCap_total_le (s : PTYSession) : totalBytes (enforceCap s).chunks ≤ capSize := by
  apply enforceCapLoop_le_cap s.chunks s.chunks.length 0 (le_refl _)
  · simp [totalBytes]
  · exact Nat.zero_le _

theorem appendChunk_nextSeq (s : PTYSession) (d : List Byte) (now : Int) :
    (appendChunk s d now).nextSeq = s.nextSeq + 1 := rfl

theorem appendChunk_chunks_eq_drop (s : PTYSession) (d : List Byte) (now : Int) :
    ∃ j, (appendChunk s d now).chunks = (s.chunks ++ [newChunk s d now]).drop j :=
  enforceCap_chunks_eq_drop (pushChunk s d now)

theorem appendAll_nil (s : PTYSession) : appendAll s [] = s := rfl

theorem appendAll_cons (s : PTYSession) (r : List Byte × Int) (rs : List (List Byte × Int)) :
    appendAll s (r :: rs) = appendAll (appendChunk s r.1 r.2) rs := rfl

theorem appendAll_nextSeq (s : PTYSession) (reads : List (List Byte × Int)) :
    (appendAll s reads).nextSeq = s.nextSeq + reads.length := by
  induction reads generalizing s with
  | nil => simp [appendAll_nil]
  | cons r rs ih =>
    rw [appendAll_cons, ih, appendChunk_nextSeq, List.length_cons]
    omega

theorem BufferInv_newSession (id : String) (lo : Bool) : BufferInv (newSession id lo) := by
  simp [BufferInv, Consecutive, newSession]

theorem BufferInv_appendChunk (s : PTYSession) (d : List Byte) (now : Int)
    (h : BufferInv s) : BufferInv (appendChunk s d now) := by
  obtain ⟨j, hj⟩ := appendChunk_chunks_eq_drop s d now
  have hpush : Consecutive (s.chunks ++ [newChunk s d now]) := by
    unfold Consecutive
    rw [List.chain'_append]
    refine ⟨h.1, List.chain'_singleton _, ?_⟩
    intro x hx y hy
    simp at hy
    subst hy
    have := h.2 x hx
    simp [newChunk]; omega
  refine ⟨?_, ?_⟩
  · rw [hj]; exact List.Chain'.drop hpush j
  · intro c hc
    rw [hj, List.getLast?_drop] at hc
    split at hc
    · simp at hc
    · simp at hc
      subst hc
      simp [appendChunk_nextSeq, newChunk]

theorem BufferInv_appendAll (s : PTYSession) (reads : List (List Byte × Int))
    (h : BufferInv s) : BufferInv (appendAll s reads) := by
  induction reads generalizing s with
  | nil => exact h
  | cons r rs ih => exact ih _ (BufferInv_appendChunk s r.1 r.2 h)

theorem Consecutive.seqIncreasing {cs : List Chunk} (h : Consecutive cs) : SeqIncreasing cs := by
  unfold Consecutive at h
  unfold SeqIncreasing
  have h2 : cs.Chain' (fun a b => a.Seq < b.Seq) :=
    List.Chain'.imp (fun a b hab => by omega) h
  haveI : IsTrans Chunk (fun a b => a.Seq < b.Seq) := ⟨fun a b c => Nat.lt_trans⟩
  exact List.chain'_iff_pairwise.mp h2

theorem SeqIncreasing.nodup {cs : List Chunk} (h : SeqIncreasing cs) :
    (cs.map (fun c => c.Seq)).Nodup := by
  unfold SeqIncreasing at h
  rw [List.Nodup, List.pairwise_map]
  exact List.Pairwise.imp (fun hab => Nat.ne_of_lt hab) h

/-- The buffer is a tail of everything appended: only a head can be missing. -/
theorem appendAll_chunks_suffix (s : PTYSession) (reads : List (List Byte × Int)) :
    (appendAll s reads).chunks <:+ s.chunks ++ producedFrom s.nextSeq reads := by
  induction reads generalizing s with
  | nil => simp [appendAll_nil, producedFrom]
  | cons r rs ih =>
    rw [appendAll_cons]
    refine (ih (appendChunk s r.1 r.2)).trans ?_
    obtain ⟨j, hj⟩ := appendChunk_chunks_eq_drop s r.1 r.2
    rw [hj, appendChunk_nextSeq]
    have : s.chunks ++ producedFrom s.nextSeq (r :: rs) =
        (s.chunks ++ [newChunk s r.1 r.2]) ++ producedFrom (s.nextSeq + 1) rs := by
      simp [producedFrom, newChunk]
    rw [this]
    refine ⟨(s.chunks ++ [newChunk s r.1 r.2]).take j, ?_⟩
    rw [← List.append_assoc, List.take_append_drop]

theorem producedFrom_seq_ge (k : Nat) (reads : List (List Byte × Int)) :
    ∀ c ∈ producedFrom k reads, k ≤ c.Seq := by
  induction reads generalizing k with
  | nil => simp [producedFrom]
  | cons r rs ih =>
    intro c hc
    simp only [producedFrom, List.mem_cons] at hc
    rcases hc with rfl | hc
    · exact le_refl _
    · exact Nat.le_of_succ_le (ih (k + 1) c hc)

theorem appendAll_newSession_seq_pos (id : String) (lo : Bool) (reads : List (List Byte × Int)) :
    ∀ c ∈ (appendAll (newSession id lo) reads).chunks, 0 < c.Seq := by
  intro c hc
  have hsuf := appendAll_chunks_suffix (newSession id lo) reads
  have hmem := hsuf.subset hc
  simp only [newSession, List.nil_append] at hmem
  exact producedFrom_seq_ge 1 reads c hmem

theorem appendAll_append_singleton (s : PTYSession) (rs : List (List Byte × Int))
    (r : List Byte × Int) :
    appendAll s (rs ++ [r]) = appendChunk (appendAll s rs) r.1 r.2 := by
  simp [appendAll, List.foldl_append]

/-! ## The read loop -/

theorem readLoop_ret {n : Nat} {mb timeout deadline : Int} {ticks : List Tick} {r : ReadResult}
    (h : readLoop n mb timeout deadline ticks = some r) :
    ∃ pre t post, ticks = pre ++ t :: post ∧
      (∀ p ∈ pre, readIter n mb timeout deadline p = Iter.sleep) ∧
      readIter n mb timeout deadline t = Iter.ret r := by
  induction ticks with
  | nil => simp [readLoop] at h
  | cons t ts ih =>
    simp only [readLoop] at h
    cases hit : readIter n mb timeout deadline t with
    | ret r1 =>
      rw [hit] at h
      simp only [Option.some.injEq] at h
      subst h
      exact ⟨[], t, ts, rfl, by simp, hit⟩
    | sleep =>
      rw [hit] at h
      obtain ⟨pre, t1, post, h1, h2, h3⟩ := ih h
      refine ⟨t :: pre, t1, post, by simp [h1], ?_, h3⟩
      intro p hp
      rcases List.mem_cons.mp hp with rfl | hp
      · exact hit
      · exact h2 p hp

theorem readLoop_append_sleep (n : Nat) (mb timeout deadline : Int) (pre rest : List Tick)
    (h : ∀ p ∈ pre, readIter n mb timeout deadline p = Iter.sleep) :
    readLoop n mb timeout deadline (pre ++ rest) = readLoop n mb timeout deadline rest := by
  induction pre with
  | nil => rfl
  | cons p ps ih =>
    have hp := h p (List.mem_cons_self _ _)
    simp only [List.cons_append, readLoop, hp]
    exact ih (fun q hq => h q (List.mem_cons_of_mem _ hq))

theorem PTYRead_known {m : PTYManager} {id : String} (n : Nat) (mb timeout start : Int)
    (ticks : List Tick) (hknown : m.get id ≠ none) :
    PTYRead m id n mb timeout start ticks = readLoop n mb timeout (start + timeout) ticks := by
  unfold PTYRead
  cases hg : m.get id with
  | none => exact absurd hg hknown
  | some s => rfl

/-- A read of a known session that returns does so on one of the snapshots it
took, with the chunks collected from that snapshot. -/
theorem PTYRead_ret_snapshot {m : PTYManager} {id : String} {n : Nat} {mb timeout start : Int}
    {ticks : List Tick} {r : ReadResult} (hknown : m.get id ≠ none)
    (h : PTYRead m id n mb timeout start ticks = some r) :
    ∃ t ∈ ticks, readIter n mb timeout (start + timeout) t = Iter.ret r ∧
      r.chunks = collect n mb t.sess.chunks 0 := by
  rw [PTYRead_known n mb timeout start ticks hknown] at h
  obtain ⟨pre, t, post, h1, _, h3⟩ := readLoop_ret h
  exact ⟨t, by simp [h1], h3, readIter_ret_chunks h3⟩

theorem collect_eq_nil_of_matching_nil {n : Nat} {mb : Int} {cs : List Chunk} {b : Nat}
    (h : matching n cs = []) : collect n mb cs b = [] := by
  have := collect_isPrefix n mb cs b
  rw [h] at this
  exact List.prefix_nil.mp this

theorem matching_ne_nil_iff {n : Nat} {cs : List Chunk} :
    matching n cs ≠ [] ↔ ∃ c ∈ cs, n < c.Seq := by
  constructor
  · intro h
    obtain ⟨c, hc⟩ := List.exists_mem_of_ne_nil _ h
    exact ⟨c, (mem_matching.mp hc).1, (mem_matching.mp hc).2⟩
  · rintro ⟨c, hc, hlt⟩ h
    have : c ∈ matching n cs := mem_matching.mpr ⟨hc, hlt⟩
    rw [h] at this
    simp at this

/-- An iteration that finds a matching chunk or a closed session returns. -/
theorem readIter_ready (n : Nat) (mb timeout deadline : Int) (t : Tick)
    (h : matching n t.sess.chunks ≠ [] ∨ t.sess.closed = true) :
    readIter n mb timeout deadline t =
      Iter.ret { chunks := collect n mb t.sess.chunks 0, closed := t.sess.closed, err := none } := by
  unfold readIter
  simp only
  rw [if_pos]
  rcases h with h | h
  · exact Or.inl (List.length_pos.mpr (collect_ne_nil n mb _ 0 h))
  · exact Or.inr h

/-- An iteration that finds nothing on an open session returns only when the
timeout is positive and the clock is after the deadline. -/
theorem readIter_idle (n : Nat) (mb timeout deadline : Int) (t : Tick)
    (hm : matching n t.sess.chunks = []) (hc : t.sess.closed = false) :
    readIter n mb timeout deadline t =
      if timeout > 0 ∧ t.now > deadline then
        Iter.ret { chunks := [], closed := t.closedLate, err := none }
      else Iter.sleep := by
  unfold readIter
  simp only
  rw [if_neg]
  rw [collect_eq_nil_of_matching_nil hm, hc]
  simp

/-! ## Read: what is returned -/

/-- C1: the list returned by a Read of a known session is an initial segment of
the chunks of the snapshot it returned on whose seq exceeds since_seq, in buffer
order; every returned chunk has seq > since_seq, none has seq <= since_seq, and
the returned seqs are strictly increasing, the buffer's being so (as they are in
every state the reader produces). -/
theorem read_returns_prefix_of_matching (m : PTYManager) (id : String) (sinceSeq : Nat)
    (maxBytes timeout start : Int) (ticks : List Tick) (r : ReadResult)
    (hknown : m.get id ≠ none)
    (hret : PTYRead m id sinceSeq maxBytes timeout start ticks = some r) :
    ∃ t ∈ ticks,
      r.chunks <+: matching sinceSeq t.sess.chunks ∧
      (∀ c ∈ r.chunks, c ∈ t.sess.chunks ∧ sinceSeq < c.Seq) ∧
      (∀ c ∈ r.chunks, ¬ c.Seq ≤ sinceSeq) ∧
      (SeqIncreasing t.sess.chunks → SeqIncreasing r.chunks) ∧
      (∀ sid lo reads, t.sess = appendAll (newSession sid lo) reads → SeqIncreasing r.chunks) := by
  obtain ⟨t, ht, _, hc⟩ := PTYRead_ret_snapshot hknown hret
  have hpre : r.chunks <+: matching sinceSeq t.sess.chunks := by
    rw [hc]; exact collect_isPrefix _ _ _ _
  have hmem : ∀ c ∈ r.chunks, c ∈ t.sess.chunks ∧ sinceSeq < c.Seq :=
    fun c hcm => mem_matching.mp (hpre.subset hcm)
  have hinc : SeqIncreasing t.sess.chunks → SeqIncreasing r.chunks := fun hs =>
    List.Pairwise.sublist (hpre.sublist.trans (matching_sublist _ _)) hs
  refine ⟨t, ht, hpre, hmem, fun c hcm => Nat.not_le.mpr (hmem c hcm).2, hinc, ?_⟩
  intro sid lo reads hs
  apply hinc
  rw [hs]
  exact (BufferInv_appendAll _ reads (BufferInv_newSession sid lo)).1.seqIncreasing

/-- Witness of C1: a Read of the three-chunk session with since_seq = 1. -/
theorem read_returns_prefix_of_matching_witness :
    ∃ t ∈ [({ sess := demoSession, now := 5, closedLate := false } : Tick)],
      (collect 1 0 demoSession.chunks 0) <+: matching 1 t.sess.chunks ∧
      (∀ c ∈ collect 1 0 demoSession.chunks 0, c ∈ t.sess.chunks ∧ 1 < c.Seq) ∧
      (∀ c ∈ collect 1 0 demoSession.chunks 0, ¬ c.Seq ≤ 1) ∧
      (SeqIncreasing t.sess.chunks → SeqIncreasing (collect 1 0 demoSession.chunks 0)) ∧
      (∀ sid lo reads, t.sess = appendAll (newSession sid lo) reads →
        SeqIncreasing (collect 1 0 demoSession.chunks 0)) :=
  read_returns_prefix_of_matching demoManager "a1b2c3d4" 1 0 0 0
    [{ sess := demoSession, now := 5, closedLate := false }]
    { chunks := collect 1 0 demoSession.chunks 0, closed := false, err := none }
    (by decide) (by decide)

/-- A read of a known session that returns does so on the first snapshot whose
iteration does not sleep: the ticks before it all slept and the call had not
returned on them, and the chunks returned are those collected from it. -/
theorem PTYRead_ret_first_awake {m : PTYManager} {id : String} {n : Nat} {mb timeout start : Int}
    {ticks : List Tick} {r : ReadResult} (hknown : m.get id ≠ none)
    (h : PTYRead m id n mb timeout start ticks = some r) :
    ∃ pre t post, ticks = pre ++ t :: post ∧
      PTYRead m id n mb timeout start pre = none ∧
      (∀ p ∈ pre, readIter n mb timeout (start + timeout) p = Iter.sleep) ∧
      readIter n mb timeout (start + timeout) t = Iter.ret r ∧
      r.chunks = collect n mb t.sess.chunks 0 := by
  rw [PTYRead_known n mb timeout start ticks hknown] at h
  obtain ⟨pre, t, post, h1, h2, h3⟩ := readLoop_ret h
  refine ⟨pre, t, post, h1, ?_, h2, h3, readIter_ret_chunks h3⟩
  rw [PTYRead_known n mb timeout start pre hknown]
  have := readLoop_append_sleep n mb timeout (start + timeout) pre [] h2
  rw [List.append_nil] at this
  rw [this]; rfl

/-- A read of a known session returns on the first snapshot that finds a matching
chunk, after iterations that slept, with the chunks collected from it. -/
theorem PTYRead_on_matching {m : PTYManager} {id : String} (n : Nat) (mb timeout start : Int)
    (pre : List Tick) (t : Tick) (post : List Tick) (hknown : m.get id ≠ none)
    (hsleep : ∀ p ∈ pre, readIter n mb timeout (start + timeout) p = Iter.sleep)
    (hmatch : matching n t.sess.chunks ≠ []) :
    PTYRead m id n mb timeout start (pre ++ t :: post) =
      some { chunks := collect n mb t.sess.chunks 0, closed := t.sess.closed, err := none } := by
  rw [PTYRead_known _ _ _ _ _ hknown, readLoop_append_sleep _ _ _ _ pre _ hsleep]
  simp only [readLoop, readIter_ready _ _ _ _ t (Or.inl hmatch)]

/-- C2: for max_bytes > 0, every return of a Read of a known session is made on
the first snapshot whose iteration does not sleep, with the chunks the loop
collects from the buffer of that snapshot; a Read does return on the first
snapshot that finds a chunk with seq > since_seq; and what the loop collects
from a buffer is the shortest initial segment of its matching chunks whose
total data length reaches max_bytes, or all of them when their total is below
max_bytes: chunks are whole, the one that crosses the threshold is included,
and the collected chunks without the last total strictly less than max_bytes. -/
theorem read_max_bytes_shortest_prefix (m : PTYManager) (id : String) (sinceSeq : Nat)
    (maxBytes timeout start : Int) (hmax : 0 < maxBytes) (hknown : m.get id ≠ none) :
    (∀ ticks r, PTYRead m id sinceSeq maxBytes timeout start ticks = some r →
      ∃ pre t post, ticks = pre ++ t :: post ∧
        PTYRead m id sinceSeq maxBytes timeout start pre = none ∧
        (∀ p ∈ pre, readIter sinceSeq maxBytes timeout (start + timeout) p = Iter.sleep) ∧
        readIter sinceSeq maxBytes timeout (start + timeout) t = Iter.ret r ∧
        r.chunks = collect sinceSeq maxBytes t.sess.chunks 0) ∧
    (∀ pre t post,
      (∀ p ∈ pre, readIter sinceSeq maxBytes timeout (start + timeout) p = Iter.sleep) →
      (∃ c ∈ t.sess.chunks, sinceSeq < c.Seq) →
      PTYRead m id sinceSeq maxBytes timeout start (pre ++ t :: post) =
        some { chunks := collect sinceSeq maxBytes t.sess.chunks 0,
               closed := t.sess.closed, err := none }) ∧
    (∀ cs : List Chunk,
      collect sinceSeq maxBytes cs 0 <+: cs.filter (fun c => sinceSeq < c.Seq) ∧
      ((totalBytes (cs.filter (fun c => sinceSeq < c.Seq)) : Int) < maxBytes →
        collect sinceSeq maxBytes cs 0 = cs.filter (fun c => sinceSeq < c.Seq)) ∧
      (maxBytes ≤ (totalBytes (cs.filter (fun c => sinceSeq < c.Seq)) : Int) →
        maxBytes ≤ (totalBytes (collect sinceSeq maxBytes cs 0) : Int) ∧
        ∀ p, p <+: cs.filter (fun c => sinceSeq < c.Seq) → maxBytes ≤ (totalBytes p : Int) →
          (collect sinceSeq maxBytes cs 0).length ≤ p.length) ∧
      (totalBytes (collect sinceSeq maxBytes cs 0).dropLast : Int) < maxBytes) := by
  have h0 : ((0 : Nat) : Int) < maxBytes := by simpa using hmax
  refine ⟨fun ticks r hret => PTYRead_ret_first_awake hknown hret, ?_, ?_⟩
  · intro pre t post hsleep hmatch
    exact PTYRead_on_matching sinceSeq maxBytes timeout start pre t post hknown hsleep
      (matching_ne_nil_iff.mpr hmatch)
  · intro cs
    refine ⟨collect_isPrefix _ _ _ _, ?_, ?_, ?_⟩
    · intro hlt
      exact collect_eq_matching _ _ _ _ (Or.inr (by simpa using hlt))
    · intro hge
      refine ⟨?_, ?_⟩
      · have := collect_reaches sinceSeq maxBytes cs 0 hmax (by simpa using hge) h0
        simpa using this
      · intro p hp hreach
        exact collect_shortest sinceSeq maxBytes cs 0 h0 p hp (by simpa using hreach)
    · have := collect_dropLast_lt sinceSeq maxBytes cs 0 h0
      simpa using this

/-- Witness of C2: max_bytes = 3 and a timeout of 300 ms; the first snapshot finds
nothing and the call sleeps, the second finds the three chunks (2, 1 and 3
bytes), and the call returns the first two of them. -/
theorem read_max_bytes_shortest_prefix_witness :
    readIter 0 3 300000000 (0 + 300000000) (idleTick 1) = Iter.sleep ∧
    PTYRead demoManager "a1b2c3d4" 0 3 300000000 0 ([idleTick 1] ++ dataTick 50000001 :: []) =
      some { chunks := collect 0 3 (dataTick 50000001).sess.chunks 0,
             closed := (dataTick 50000001).sess.closed, err := none } ∧
    collect 0 3 (dataTick 50000001).sess.chunks 0 = demoSession.chunks.take 2 ∧
    (totalBytes (collect 0 3 demoSession.chunks 0).dropLast : Int) < 3 :=
  ⟨by decide,
   ( read_max_bytes_shortest_prefix demoManager "a1b2c3d4" 0 3 300000000 0
      (by decide) (by decide)).2.1 [idleTick 1] (dataTick 50000001) [] (by decide) (by decide),
   by decide,
   (( read_max_bytes_shortest_prefix demoManager "a1b2c3d4" 0 3 300000000 0
      (by decide) (by decide)).2.2 demoSession.chunks).2.2.2⟩

/-- C3: with max_bytes = 0, every return of a Read of a known session is made on
the first snapshot whose iteration does not sleep, with exactly the chunks of
the buffer of that snapshot whose seq exceeds since_seq; that is the whole
buffer when since_seq is below every buffered seq, as it is when the buffer is
in strictly increasing seq order and since_seq is below its oldest seq, and
for since_seq = 0 in every buffer the reader produces; and a Read does return
them on the first snapshot that finds such a chunk. -/
theorem read_max_bytes_zero_returns_all (m : PTYManager) (id : String) (sinceSeq : Nat)
    (timeout start : Int) (hknown : m.get id ≠ none) :
    (∀ ticks r, PTYRead m id sinceSeq 0 timeout start ticks = some r →
      ∃ pre t post, ticks = pre ++ t :: post ∧
        PTYRead m id sinceSeq 0 timeout start pre = none ∧
        (∀ p ∈ pre, readIter sinceSeq 0 timeout (start + timeout) p = Iter.sleep) ∧
        readIter sinceSeq 0 timeout (start + timeout) t = Iter.ret r ∧
        r.chunks = t.sess.chunks.filter (fun c => sinceSeq < c.Seq) ∧
        ((∀ c ∈ t.sess.chunks, sinceSeq < c.Seq) → r.chunks = t.sess.chunks) ∧
        (SeqIncreasing t.sess.chunks → (∀ c ∈ t.sess.chunks.head?, sinceSeq < c.Seq) →
          r.chunks = t.sess.chunks) ∧
        (∀ sid lo reads, t.sess.chunks = (appendAll (newSession sid lo) reads).chunks →
          sinceSeq = 0 → r.chunks = t.sess.chunks)) ∧
    (∀ pre t post,
      (∀ p ∈ pre, readIter sinceSeq 0 timeout (start + timeout) p = Iter.sleep) →
      (∃ c ∈ t.sess.chunks, sinceSeq < c.Seq) →
      PTYRead m id sinceSeq 0 timeout start (pre ++ t :: post) =
        some { chunks := t.sess.chunks.filter (fun c => sinceSeq < c.Seq),
               closed := t.sess.closed, err := none }) := by
  have hcollect : ∀ cs : List Chunk,
      collect sinceSeq 0 cs 0 = cs.filter (fun c => sinceSeq < c.Seq) :=
    fun cs => collect_eq_matching _ _ _ _ (Or.inl (le_refl _))
  refine ⟨?_, ?_⟩
  · intro ticks r hret
    obtain ⟨pre, t, post, h1, h2, h3, h4, h5⟩ := PTYRead_ret_first_awake hknown hret
    have hall : r.chunks = t.sess.chunks.filter (fun c => sinceSeq < c.Seq) := by
      rw [h5]; exact hcollect _
    have hwhole : (∀ c ∈ t.sess.chunks, sinceSeq < c.Seq) → r.chunks = t.sess.chunks := by
      intro hgt
      rw [hall, List.filter_eq_self]
      intro c hc
      simpa using hgt c hc
    refine ⟨pre, t, post, h1, h2, h3, h4, hall, hwhole, ?_, ?_⟩
    · intro hinc hhead
      apply hwhole
      intro c hcm
      cases hcs : t.sess.chunks with
      | nil => rw [hcs] at hcm; simp at hcm
      | cons a as =>
        rw [hcs] at hcm hinc hhead
        have ha : sinceSeq < a.Seq := hhead a (by simp)
        rcases List.mem_cons.mp hcm with rfl | hmem
        · exact ha
        · have := (List.pairwise_cons.mp hinc).1 c hmem
          omega
    · intro sid lo reads hs h0
      apply hwhole
      intro c hcm
      rw [hs] at hcm
      have := appendAll_newSession_seq_pos sid lo reads c hcm
      omega
  · intro pre t post hsleep hmatch
    rw [← hcollect t.sess.chunks]
    exact PTYRead_on_matching sinceSeq 0 timeout start pre t post hknown hsleep
      (matching_ne_nil_iff.mpr hmatch)

/-- Witness of C3: max_bytes = 0, since_seq = 0 and a timeout of 300 ms; the call
sleeps on an empty snapshot and returns the whole three-chunk buffer on the
next. -/
theorem read_max_bytes_zero_returns_all_witness :
    readIter 0 0 300000000 (0 + 300000000) (idleTick 1) = Iter.sleep ∧
    PTYRead demoManager "a1b2c3d4" 0 0 300000000 0 ([idleTick 1] ++ dataTick 50000001 :: []) =
      some { chunks := (dataTick 50000001).sess.chunks.filter (fun c => 0 < c.Seq),
             closed := (dataTick 50000001).sess.closed, err := none } ∧
    (dataTick 50000001).sess.chunks.filter (fun c => 0 < c.Seq) = demoSession.chunks :=
  ⟨by decide,
   (read_max_bytes_zero_returns_all demoManager "a1b2c3d4" 0 300000000 0 (by decide)).2
      [idleTick 1] (dataTick 50000001) [] (by decide) (by decide),
   by decide⟩

/-! ## The buffer under reader appends -/

/-- C4: after every reader append (eviction included), starting from the session
PTYOpen creates, consecutive buffered chunks differ in seq by exactly 1, so the
seqs are strictly increasing and free of duplicates, and the buffer is a tail of
the list of all chunks appended: only a head can be missing. -/
theorem buffer_seq_consecutive (sid : String) (lo : Bool) (reads : List (List Byte × Int)) :
    Consecutive (appendAll (newSession sid lo) reads).chunks ∧
    SeqIncreasing (appendAll (newSession sid lo) reads).chunks ∧
    ((appendAll (newSession sid lo) reads).chunks.map (fun c => c.Seq)).Nodup ∧
    (appendAll (newSession sid lo) reads).chunks <:+ producedFrom 1 reads := by
  have hinv := BufferInv_appendAll _ reads (BufferInv_newSession sid lo)
  refine ⟨hinv.1, hinv.1.seqIncreasing, hinv.1.seqIncreasing.nodup, ?_⟩
  have := appendAll_chunks_suffix (newSession sid lo) reads
  simpa [newSession] using this

/-- C5: a new session has next_seq = 1; a reader append gives the new chunk
seq = next_seq and increments next_seq by exactly 1; eviction leaves next_seq
unchanged; so after N appends next_seq = N + 1, whatever was evicted. -/
theorem next_seq_counts_appends :
    (∀ sid lo, (newSession sid lo).nextSeq = 1) ∧
    (∀ s d now, (pushChunk s d now).chunks = s.chunks ++ [newChunk s d now] ∧
      (newChunk s d now).Seq = s.nextSeq ∧ (newChunk s d now).Data = d ∧
      (pushChunk s d now).nextSeq = s.nextSeq + 1) ∧
    (∀ s, (enforceCap s).nextSeq = s.nextSeq) ∧
    (∀ s d now, (appendChunk s d now).nextSeq = s.nextSeq + 1) ∧
    (∀ sid lo reads, (appendAll (newSession sid lo) reads).nextSeq = reads.length + 1) := by
  refine ⟨fun _ _ => rfl, fun _ _ _ => ⟨rfl, rfl, rfl, rfl⟩, fun _ => rfl, fun _ _ _ => rfl, ?_⟩
  intro sid lo reads
  rw [appendAll_nextSeq]
  simp [newSession, Nat.add_comm]

/-- C6: after every reader append completes (append, then enforceCap), from any
session state, the data lengths of the buffered chunks sum to at most 1 MiB
(1048576 bytes); so they do after every sequence of appends to a new session. -/
theorem buffer_within_cap_after_append :
    (∀ s d now, totalBytes (appendChunk s d now).chunks ≤ 1048576) ∧
    (∀ sid lo reads, totalBytes (appendAll (newSession sid lo) reads).chunks ≤ 1048576) := by
  have hstep : ∀ s d now, totalBytes (appendChunk s d now).chunks ≤ 1048576 := by
    intro s d now
    have := enforceCap_total_le (pushChunk s d now)
    rw [capSize_eq] at this
    exact this
  refine ⟨hstep, ?_⟩
  intro sid lo reads
  rcases List.eq_nil_or_concat reads with rfl | ⟨rs, r, rfl⟩
  · simp [appendAll_nil, newSession, totalBytes]
  · rw [List.concat_eq_append, appendAll_append_singleton]
    exact hstep _ _ _

/-! ## Read: when it returns -/

/-- Counterexample to C8: a Read with timeout = 0 of a known, open session with
an empty buffer does not return [] with closed = false on its first snapshot;
that iteration sleeps, although the clock is past the deadline, and the call
returns on the later snapshot that finds chunks. -/
theorem read_timeout_zero_counterexample :
    freshManager.get "a1b2c3d4" ≠ none ∧
    matching 0 (idleTick 1).sess.chunks = [] ∧ (idleTick 1).sess.closed = false ∧
    readIter 0 0 0 (0 + 0) (idleTick 1) = Iter.sleep ∧
    PTYRead freshManager "a1b2c3d4" 0 0 0 0 [idleTick 1] = none ∧
    PTYRead freshManager "a1b2c3d4" 0 0 0 0 [idleTick 1, dataTick 50000001]
      ≠ some { chunks := [], closed := false, err := none } ∧
    PTYRead freshManager "a1b2c3d4" 0 0 0 0 [idleTick 1, dataTick 50000001]
      = some { chunks := demoSession.chunks, closed := false, err := none } := by
  decide

/-- C8 as amended: a Read with timeout = 0 of a known session has no deadline.
An iteration that finds no chunk with seq > since_seq on an open session
sleeps, whatever the clock; the call is still waiting while every snapshot is
such, and it returns, with the chunks collected, the closed flag of that
snapshot and no error, on the first snapshot that finds a matching chunk or a
closed session, which may be its first. -/
theorem read_timeout_zero_waits_for_data (m : PTYManager) (id : String) (sinceSeq : Nat)
    (maxBytes start : Int) (pre : List Tick) (t : Tick) (post : List Tick)
    (hknown : m.get id ≠ none)
    (hidle : ∀ p ∈ pre, matching sinceSeq p.sess.chunks = [] ∧ p.sess.closed = false)
    (hready : matching sinceSeq t.sess.chunks ≠ [] ∨ t.sess.closed = true) :
    (∀ p ∈ pre, readIter sinceSeq maxBytes 0 (start + 0) p = Iter.sleep) ∧
    PTYRead m id sinceSeq maxBytes 0 start pre = none ∧
    PTYRead m id sinceSeq maxBytes 0 start (pre ++ t :: post) =
      some { chunks := collect sinceSeq maxBytes t.sess.chunks 0,
             closed := t.sess.closed, err := none } := by
  have hsleep : ∀ p ∈ pre, readIter sinceSeq maxBytes 0 (start + 0) p = Iter.sleep := by
    intro p hp
    rw [readIter_idle _ _ _ _ _ (hidle p hp).1 (hidle p hp).2]
    simp
  refine ⟨hsleep, ?_, ?_⟩
  · rw [PTYRead_known _ _ _ _ _ hknown]
    have := readLoop_append_sleep sinceSeq maxBytes 0 (start + 0) pre [] hsleep
    rw [List.append_nil] at this
    rw [this]; rfl
  · rw [PTYRead_known _ _ _ _ _ hknown, readLoop_append_sleep _ _ _ _ pre _ hsleep]
    simp only [readLoop, readIter_ready _ _ _ _ t hready]

/-- Witness of C8 as amended: two idle snapshots, then one with three chunks. -/
theorem read_timeout_zero_waits_for_data_witness :
    (∀ p ∈ [idleTick 1, idleTick 50000001], readIter 0 0 0 (0 + 0) p = Iter.sleep) ∧
    PTYRead freshManager "a1b2c3d4" 0 0 0 0 [idleTick 1, idleTick 50000001] = none ∧
    PTYRead freshManager "a1b2c3d4" 0 0 0 0
        ([idleTick 1, idleTick 50000001] ++ dataTick 100000001 :: []) =
      some { chunks := collect 0 0 (dataTick 100000001).sess.chunks 0,
             closed := (dataTick 100000001).sess.closed, err := none } :=
  read_timeout_zero_waits_for_data freshManager "a1b2c3d4" 0 0 0
    [idleTick 1, idleTick 50000001] (dataTick 100000001) [] (by decide) (by decide) (by decide)

/-- C9: for every timeout, a Read of a known session returns on its first
snapshot whenever a chunk with seq > since_seq is buffered or the session is
closed, with the chunks collected (at least one when one matches), the closed
flag of the snapshot and no error; when the session is closed and no chunk
matches, that is the empty list with closed = true. -/
theorem read_returns_on_first_snapshot (m : PTYManager) (id : String) (sinceSeq : Nat)
    (maxBytes timeout start : Int) (t : Tick) (rest : List Tick)
    (hknown : m.get id ≠ none)
    (hready : (∃ c ∈ t.sess.chunks, sinceSeq < c.Seq) ∨ t.sess.closed = true) :
    PTYRead m id sinceSeq maxBytes timeout start (t :: rest) =
      some { chunks := collect sinceSeq maxBytes t.sess.chunks 0,
             closed := t.sess.closed, err := none } ∧
    ((∃ c ∈ t.sess.chunks, sinceSeq < c.Seq) → collect sinceSeq maxBytes t.sess.chunks 0 ≠ []) ∧
    (t.sess.closed = true → (∀ c ∈ t.sess.chunks, c.Seq ≤ sinceSeq) →
      PTYRead m id sinceSeq maxBytes timeout start (t :: rest) =
        some { chunks := [], closed := true, err := none }) := by
  have hready2 : matching sinceSeq t.sess.chunks ≠ [] ∨ t.sess.closed = true :=
    hready.imp matching_ne_nil_iff.mpr (fun h => h)
  have hret : PTYRead m id sinceSeq maxBytes timeout start (t :: rest) =
      some { chunks := collect sinceSeq maxBytes t.sess.chunks 0,
             closed := t.sess.closed, err := none } := by
    rw [PTYRead_known _ _ _ _ _ hknown]
    simp only [readLoop, readIter_ready _ _ _ _ t hready2]
  refine ⟨hret, fun h => collect_ne_nil _ _ _ _ (matching_ne_nil_iff.mpr h), ?_⟩
  intro hclosed hnone
  have hm : matching sinceSeq t.sess.chunks = [] := by
    by_contra hne
    obtain ⟨c, hc, hlt⟩ := matching_ne_nil_iff.mp hne
    exact absurd (hnone c hc) (Nat.not_le.mpr hlt)
  rw [hret, collect_eq_nil_of_matching_nil hm, hclosed]

/-- Witness of C9: a first snapshot of a closed session with an empty buffer,
with a timeout of 300 ms. -/
theorem read_returns_on_first_snapshot_witness :
    PTYRead freshManager "a1b2c3d4" 0 65536 300000000 0 (closedTick 1 :: []) =
      some { chunks := collect 0 65536 (closedTick 1).sess.chunks 0,
             closed := (closedTick 1).sess.closed, err := none } ∧
    ((∃ c ∈ (closedTick 1).sess.chunks, 0 < c.Seq) →
      collect 0 65536 (closedTick 1).sess.chunks 0 ≠ []) ∧
    ((closedTick 1).sess.closed = true → (∀ c ∈ (closedTick 1).sess.chunks, c.Seq ≤ 0) →
      PTYRead freshManager "a1b2c3d4" 0 65536 300000000 0 (closedTick 1 :: []) =
        some { chunks := [], closed := true, err := none }) :=
  read_returns_on_first_snapshot freshManager "a1b2c3d4" 0 65536 300000000 0 (closedTick 1) []
    (by decide) (Or.inr (by decide))

/-- C10: for every timeout > 0, a Read of a known session that stays open and
gets no chunk with seq > since_seq is still asleep while the clock has not
passed start + timeout, and returns on the first iteration whose clock reading
is after start + timeout, with no chunks, closed = false and no error; the flag
returned is the closed state of that snapshot. -/
theorem read_times_out_without_error (m : PTYManager) (id : String) (sinceSeq : Nat)
    (maxBytes timeout start : Int) (pre : List Tick) (t : Tick) (post : List Tick)
    (htimeout : 0 < timeout) (hknown : m.get id ≠ none)
    (hopen : ∀ p ∈ pre ++ [t], p.sess.closed = false ∧ p.closedLate = false)
    (hnodata : ∀ p ∈ pre ++ [t], ∀ c ∈ p.sess.chunks, c.Seq ≤ sinceSeq)
    (hbefore : ∀ p ∈ pre, p.now ≤ start + timeout)
    (hafter : start + timeout < t.now) :
    PTYRead m id sinceSeq maxBytes timeout start pre = none ∧
    PTYRead m id sinceSeq maxBytes timeout start (pre ++ t :: post) =
      some { chunks := [], closed := false, err := none } ∧
    ∀ r, PTYRead m id sinceSeq maxBytes timeout start (pre ++ t :: post) = some r →
      r.chunks = [] ∧ r.closed = t.sess.closed ∧ r.err = none := by
  have hm : ∀ p ∈ pre ++ [t], matching sinceSeq p.sess.chunks = [] := by
    intro p hp
    by_contra hne
    obtain ⟨c, hc, hlt⟩ := matching_ne_nil_iff.mp hne
    exact absurd (hnodata p hp c hc) (Nat.not_le.mpr hlt)
  have hsleep : ∀ p ∈ pre, readIter sinceSeq maxBytes timeout (start + timeout) p = Iter.sleep := by
    intro p hp
    have hp2 : p ∈ pre ++ [t] := List.mem_append_left _ hp
    rw [readIter_idle _ _ _ _ _ (hm p hp2) (hopen p hp2).1, if_neg]
    rintro ⟨_, h2⟩
    have := hbefore p hp
    omega
  have ht : t ∈ pre ++ [t] := by simp
  have hret : PTYRead m id sinceSeq maxBytes timeout start (pre ++ t :: post) =
      some { chunks := [], closed := false, err := none } := by
    rw [PTYRead_known _ _ _ _ _ hknown, readLoop_append_sleep _ _ _ _ pre _ hsleep]
    simp only [readLoop]
    rw [readIter_idle _ _ _ _ _ (hm t ht) (hopen t ht).1, if_pos ⟨htimeout, hafter⟩,
      (hopen t ht).2]
  refine ⟨?_, hret, ?_⟩
  · rw [PTYRead_known _ _ _ _ _ hknown]
    have := readLoop_append_sleep sinceSeq maxBytes timeout (start + timeout) pre [] hsleep
    rw [List.append_nil] at this
    rw [this]; rfl
  · intro r hr
    rw [hret] at hr
    cases hr
    exact ⟨rfl, (hopen t ht).1.symm, rfl⟩

/-- Witness of C10: timeout 100 ms from clock 0, snapshots at 1 ns, 50 ms,
100 ms and 150 ms of a session that stays open and silent. -/
theorem read_times_out_without_error_witness :
    PTYRead freshManager "a1b2c3d4" 0 0 100000000 0
      [idleTick 1, idleTick 50000001, idleTick 100000000] = none ∧
    PTYRead freshManager "a1b2c3d4" 0 0 100000000 0
      ([idleTick 1, idleTick 50000001, idleTick 100000000] ++ idleTick 150000001 :: []) =
      some { chunks := [], closed := false, err := none } ∧
    ∀ r, PTYRead freshManager "a1b2c3d4" 0 0 100000000 0
      ([idleTick 1, idleTick 50000001, idleTick 100000000] ++ idleTick 150000001 :: []) = some r →
      r.chunks = [] ∧ r.closed = (idleTick 150000001).sess.closed ∧ r.err = none :=
  read_times_out_without_error freshManager "a1b2c3d4" 0 0 100000000 0
    [idleTick 1, idleTick 50000001, idleTick 100000000] (idleTick 150000001) []
    (by decide) (by decide) (by decide) (by decide) (by decide) (by decide)

/-! ## A polling client -/

theorem matching_append (n : Nat) (xs ys : List Chunk) :
    matching n (xs ++ ys) = matching n xs ++ matching n ys := by
  simp [matching]

theorem matching_eq_nil {n : Nat} {cs : List Chunk} (h : ∀ c ∈ cs, c.Seq ≤ n) :
    matching n cs = [] := by
  rw [matching, List.filter_eq_nil_iff]
  intro c hc
  have := h c hc
  simp only [decide_eq_true_eq]; omega

theorem matching_eq_self {n : Nat} {cs : List Chunk} (h : ∀ c ∈ cs, n < c.Seq) :
    matching n cs = cs := by
  rw [matching, List.filter_eq_self]
  intro c hc
  simpa using h c hc

theorem matching_matching {n k : Nat} (h : n ≤ k) (cs : List Chunk) :
    matching k (matching n cs) = matching k cs := by
  simp only [matching, List.filter_filter]
  apply List.filter_congr
  intro c _
  by_cases hk : k < c.Seq
  · have : n < c.Seq := by omega
    simp [hk, this]
  · simp [hk]

theorem consume_nil (f : Follower) : consume f [] = f := rfl

theorem consume_append_singleton (f : Follower) (cs : List Chunk) (c : Chunk) :
    consume f (cs ++ [c]) =
      { consume f cs with acc := (consume f cs).acc ++ [c], since := c.Seq } := by
  simp [consume, List.foldl_append]

theorem consume_fields (f : Follower) (cs : List Chunk) :
    (consume f cs).sess = f.sess ∧ (consume f cs).produced = f.produced ∧
    (consume f cs).acc = f.acc ++ cs := by
  induction cs using List.reverseRecOn with
  | nil => simp [consume_nil]
  | append_singleton cs c ih =>
    rw [consume_append_singleton]
    exact ⟨ih.1, ih.2.1, by simp [ih.2.2]⟩

theorem consume_since (f : Follower) (cs : List Chunk) (c : Chunk) :
    (consume f (cs ++ [c])).since = c.Seq := by
  rw [consume_append_singleton]

/-- Consuming an initial segment of the buffered chunks above the cursor keeps
the invariant of the followed session. -/
theorem FollowInv.consume {f : Follower} (h : FollowInv f) (out : List Chunk)
    (hpre : out <+: matching f.since f.sess.chunks) : FollowInv (consume f out) := by
  rcases List.eq_nil_or_concat out with rfl | ⟨init, l, rfl⟩
  · exact h
  rw [List.concat_eq_append] at hpre ⊢
  obtain ⟨hsess, hprod, hacc⟩ := consume_fields f (init ++ [l])
  have hsince := consume_since f init l
  rw [h.buffered] at hpre
  obtain ⟨rest, hrest⟩ := hpre
  have hPsorted : SeqIncreasing (matching f.since f.produced) :=
    List.Pairwise.sublist (matching_sublist _ _) h.sorted
  rw [← hrest] at hPsorted
  unfold SeqIncreasing at hPsorted
  rw [List.pairwise_append] at hPsorted
  obtain ⟨hout, _, hcross⟩ := hPsorted
  rw [List.pairwise_append] at hout
  have hinit : ∀ c ∈ init, c.Seq < l.Seq := fun c hc => hout.2.2 c hc l (by simp)
  have hrestgt : ∀ c ∈ rest, l.Seq < c.Seq := fun c hc => hcross l (by simp) c hc
  have hlmem : l ∈ matching f.since f.produced := by rw [← hrest]; simp
  have hl : f.since < l.Seq := (mem_matching.mp hlmem).2
  have hP : f.produced = f.acc ++ ((init ++ [l]) ++ rest) := by
    rw [hrest]; exact h.split
  have hmrest : matching l.Seq f.produced = rest := by
    rw [hP, matching_append, matching_append, matching_append]
    rw [matching_eq_nil (fun c hc => by have := h.seen c hc; omega),
      matching_eq_nil (fun c hc => Nat.le_of_lt (hinit c hc)),
      @matching_eq_nil l.Seq [l] (fun c hc => by simp at hc; subst hc; exact le_refl _),
      matching_eq_self hrestgt]
    simp
  refine ⟨?_, ?_, ?_, ?_, ?_, ?_, ?_⟩
  · rw [hprod]; exact h.sorted
  · rw [hprod, hsess]; exact h.below
  · rw [hprod, hacc, hsince, hmrest]
    rw [List.append_assoc]; exact hP
  · rw [hacc, hsince]
    intro c hc
    rcases List.mem_append.mp hc with hc | hc
    · have := h.seen c hc; omega
    · rcases List.mem_append.mp hc with hc | hc
      · exact Nat.le_of_lt (hinit c hc)
      · simp at hc; subst hc; exact le_refl _
  · rw [hsess, hprod, hsince, ← matching_matching (Nat.le_of_lt hl) f.sess.chunks,
      h.buffered, matching_matching (Nat.le_of_lt hl)]
  · rw [hsince, hsess]
    exact h.below l (mem_matching.mp hlmem).1
  · right
    exact ⟨l, by rw [hacc]; simp, hsince.symm⟩

theorem FollowInv.start (sid : String) (lo : Bool) : FollowInv (Follower.start sid lo) := by
  refine ⟨?_, ?_, ?_, ?_, ?_, ?_, ?_⟩ <;>
    simp [Follower.start, newSession, SeqIncreasing, matching]

/-- Every event that evicts no unreceived chunk keeps the invariant. -/
theorem FollowInv.step {f : Follower} (h : FollowInv f) (e : Event) (hk : keepsUnread f e) :
    FollowInv (f.step e) := by
  cases e with
  | append data now =>
    simp only [keepsUnread] at hk
    simp only [Follower.step]
    have hseq : (newChunk f.sess data now).Seq = f.sess.nextSeq := rfl
    have hnew : matching f.since [newChunk f.sess data now] = [newChunk f.sess data now] :=
      matching_eq_self (fun c hc => by simp at hc; subst hc; rw [hseq]; exact h.cursor)
    refine ⟨?_, ?_, ?_, ?_, ?_, ?_, ?_⟩
    · show SeqIncreasing (f.produced ++ [newChunk f.sess data now])
      unfold SeqIncreasing
      rw [List.pairwise_append]
      refine ⟨h.sorted, List.pairwise_singleton _ _, ?_⟩
      intro a ha b hb
      simp at hb; subst hb
      rw [hseq]; exact h.below a ha
    · show ∀ c ∈ f.produced ++ [newChunk f.sess data now], c.Seq < (appendChunk f.sess data now).nextSeq
      intro c hc
      rw [appendChunk_nextSeq]
      rcases List.mem_append.mp hc with hc | hc
      · exact Nat.lt_succ_of_lt (h.below c hc)
      · simp at hc; subst hc; rw [hseq]; exact Nat.lt_succ_self _
    · show f.produced ++ [newChunk f.sess data now] =
        f.acc ++ matching f.since (f.produced ++ [newChunk f.sess data now])
      rw [matching_append, hnew, ← List.append_assoc, ← h.split]
    · exact h.seen
    · show matching f.since (appendChunk f.sess data now).chunks =
        matching f.since (f.produced ++ [newChunk f.sess data now])
      rw [hk]
      show matching f.since (f.sess.chunks ++ [newChunk f.sess data now]) = _
      rw [matching_append, matching_append, h.buffered]
    · show f.since < (appendChunk f.sess data now).nextSeq
      rw [appendChunk_nextSeq]
      exact Nat.lt_succ_of_lt h.cursor
    · exact h.last
  | read mb timeout deadline now late =>
    simp only [Follower.step]
    cases hit : readIter f.since mb timeout deadline { sess := f.sess, now := now, closedLate := late } with
    | sleep => exact h
    | ret r =>
      simp only
      apply h.consume
      rw [readIter_ret_chunks hit]
      exact collect_isPrefix _ _ _ _

theorem Follower.run_nil (f : Follower) : f.run [] = f := rfl

theorem Follower.run_cons (f : Follower) (e : Event) (es : List Event) :
    f.run (e :: es) = (f.step e).run es := rfl

theorem FollowInv.run {f : Follower} (h : FollowInv f) (evs : List Event) (hk : NoLoss f evs) :
    FollowInv (f.run evs) := by
  induction evs generalizing f with
  | nil => exact h
  | cons e es ih =>
    rw [Follower.run_cons]
    exact ih (h.step e hk.1) hk.2

/-- The record of produced chunks is the list of chunks the appends create, and
the session is the one those appends leave. -/
theorem Follower.run_produced (f : Follower) (evs : List Event) :
    (f.run evs).sess = appendAll f.sess (appendsOf evs) ∧
    (f.run evs).produced = f.produced ++ producedFrom f.sess.nextSeq (appendsOf evs) := by
  induction evs generalizing f with
  | nil => simp [Follower.run_nil, appendsOf, appendAll_nil, producedFrom]
  | cons e es ih =>
    rw [Follower.run_cons]
    cases e with
    | append data now =>
      obtain ⟨h1, h2⟩ := ih (f.step (Event.append data now))
      refine ⟨?_, ?_⟩
      · rw [h1]; rfl
      · rw [h2]
        simp [Follower.step, appendsOf, producedFrom, appendChunk_nextSeq, newChunk]
    | read mb timeout deadline now late =>
      obtain ⟨h1, h2⟩ := ih (f.step (Event.read mb timeout deadline now late))
      have hsame : (f.step (Event.read mb timeout deadline now late)).sess = f.sess ∧
          (f.step (Event.read mb timeout deadline now late)).produced = f.produced := by
        simp only [Follower.step]
        split
        · exact ⟨(consume_fields f _).1, (consume_fields f _).2.1⟩
        · exact ⟨rfl, rfl⟩
      rw [hsame.1] at h1 h2
      rw [hsame.2] at h2
      exact ⟨by rw [h1]; rfl, by rw [h2]; rfl⟩

/-- C7: over every interleaving of reader appends, none of which evicts a chunk
the client has not received, and Read iterations made with since_seq at the
client's cursor (initially 0, then the seq of the last chunk received, which is
the largest received), with any max_bytes and timeout: the chunks received so
far, concatenated, are an initial segment of the list of all chunks appended,
with none twice and none up to the cursor skipped; and whenever a Read then
returns no chunks, they are that whole list. -/
theorem sequential_reads_yield_each_chunk_once (sid : String) (lo : Bool) (evs : List Event)
    (hkeep : NoLoss (Follower.start sid lo) evs) :
    ((Follower.start sid lo).run evs).sess = appendAll (newSession sid lo) (appendsOf evs) ∧
    ((Follower.start sid lo).run evs).produced = producedFrom 1 (appendsOf evs) ∧
    ((Follower.start sid lo).run evs).acc <+: producedFrom 1 (appendsOf evs) ∧
    SeqIncreasing ((Follower.start sid lo).run evs).acc ∧
    ((Follower.start sid lo).run evs).acc.Nodup ∧
    (∀ c ∈ producedFrom 1 (appendsOf evs),
      c.Seq ≤ ((Follower.start sid lo).run evs).since → c ∈ ((Follower.start sid lo).run evs).acc) ∧
    (∀ c ∈ ((Follower.start sid lo).run evs).acc, c.Seq ≤ ((Follower.start sid lo).run evs).since) ∧
    ((((Follower.start sid lo).run evs).since = 0 ∧ ((Follower.start sid lo).run evs).acc = []) ∨
      ∃ c ∈ ((Follower.start sid lo).run evs).acc,
        c.Seq = ((Follower.start sid lo).run evs).since) ∧
    (∀ maxBytes timeout deadline now late r,
      readIter ((Follower.start sid lo).run evs).since maxBytes timeout deadline
        { sess := ((Follower.start sid lo).run evs).sess, now := now, closedLate := late }
        = Iter.ret r →
      r.chunks = [] →
      ((Follower.start sid lo).run evs).acc = producedFrom 1 (appendsOf evs)) := by
  have hinv := (FollowInv.start sid lo).run evs hkeep
  obtain ⟨hsess, hprod⟩ := Follower.run_produced (Follower.start sid lo) evs
  have hprod1 : ((Follower.start sid lo).run evs).produced = producedFrom 1 (appendsOf evs) := by
    rw [hprod]; simp [Follower.start, newSession]
  generalize (Follower.start sid lo).run evs = f at hinv hsess hprod1 ⊢
  have hpre : f.acc <+: f.produced := ⟨_, hinv.split.symm⟩
  have hinc : SeqIncreasing f.acc := List.Pairwise.sublist hpre.sublist hinv.sorted
  rw [← hprod1]
  refine ⟨hsess, rfl, hpre, hinc, ?_, ?_, hinv.seen, hinv.last, ?_⟩
  · exact List.Pairwise.imp (fun hab heq => by rw [heq] at hab; exact Nat.lt_irrefl _ hab) hinc
  · intro c hc hle
    rw [hinv.split] at hc
    rcases List.mem_append.mp hc with hc | hc
    · exact hc
    · exact absurd (mem_matching.mp hc).2 (Nat.not_lt.mpr hle)
  · intro mb timeout deadline now late r hit hnil
    have hcol := readIter_ret_chunks hit
    rw [hnil] at hcol
    have hm : matching f.since f.sess.chunks = [] := by
      by_contra hne
      exact collect_ne_nil f.since mb f.sess.chunks 0 hne hcol.symm
    have := hinv.split
    rw [← hinv.buffered, hm, List.append_nil] at this
    exact this.symm

/-- Witness of C7: the interleaving `demoEvents`. -/
theorem sequential_reads_yield_each_chunk_once_witness :
    ((Follower.start "a1b2c3d4" true).run demoEvents).acc = demoSession.chunks ∧
    ((Follower.start "a1b2c3d4" true).run demoEvents).acc <+:
      producedFrom 1 (appendsOf demoEvents) ∧
    ((Follower.start "a1b2c3d4" true).run demoEvents).acc.Nodup :=
  ⟨by decide,
   (sequential_reads_yield_each_chunk_once "a1b2c3d4" true demoEvents (by decide)).2.2.1,
   (sequential_reads_yield_each_chunk_once "a1b2c3d4" true demoEvents (by decide)).2.2.2.2.1⟩

/-! ## The registry -/

theorem lookup_filter_ne (id k : String) (l : List (String × PTYSession)) :
    (l.filter (fun p => p.1 != id)).lookup k = if k = id then none else l.lookup k := by
  induction l with
  | nil => simp
  | cons p ps ih =>
    obtain ⟨pk, pv⟩ := p
    by_cases hp : pk = id
    · subst hp
      have : ((pk, pv).1 != pk) = false := by simp
      rw [List.filter_cons_of_neg (by simp), ih]
      by_cases hk : k = pk
      · simp [hk]
      · have hb : (k == pk) = false := by simpa using hk
        simp [hk, List.lookup_cons, hb]
    · rw [List.filter_cons_of_pos (by simpa using hp)]
      by_cases hkp : k = pk
      · subst hkp
        simp [List.lookup_cons, hp]
      · have hb : (k == pk) = false := by simpa using hkp
        simp only [List.lookup_cons, hb, ih]

theorem get_delete (m : PTYManager) (id k : String) :
    (m.delete id).get k = if k = id then none else m.get k := by
  simp only [PTYManager.delete, PTYManager.get]
  exact lookup_filter_ne id k m.sessions

theorem get_insert (m : PTYManager) (id k : String) (s : PTYSession) :
    (m.insert id s).get k = if k = id then some s else m.get k := by
  simp only [PTYManager.insert, PTYManager.get, List.lookup_cons]
  by_cases hk : k = id
  · simp [hk]
  · have hb : (k == id) = false := by simpa using hk
    simp only [hb, lookup_filter_ne, hk, if_false]

theorem PTYClose_unknown (m : PTYManager) (id : String) (g : Bool) (h : m.get id = none) :
    PTYClose m id g = (m, { err := none, actions := [] }) := by
  simp [PTYClose, h]

theorem PTYClose_known_mgr (m : PTYManager) (id : String) (g : Bool) (h : m.get id ≠ none) :
    (PTYClose m id g).1 = m.delete id ∧ (PTYClose m id g).2.err = none := by
  unfold PTYClose
  cases hg : m.get id with
  | none => exact absurd hg h
  | some s => exact ⟨rfl, rfl⟩

theorem PTYSend_unknown (m : PTYManager) (id : String) (data : List Byte)
    (wr : Nat × Option String) (h : m.get id = none) :
    PTYSend m id data wr = { n := 0, err := some "no such session", actions := [] } := by
  simp [PTYSend, h]

/-- C11: for every id that is not in the registry, Send returns 0 bytes written
and the error "no such session", Read returns no chunks, closed = false and
that error, Resize returns that error, and Close returns nil; none of them asks
anything of the operating system, and the manager after each call is the
manager before it. -/
theorem unknown_id_not_found (m : PTYManager) (id : String) (hunknown : m.get id = none) :
    (∀ data wr,
      PTYSend m id data wr = { n := 0, err := some "no such session", actions := [] } ∧
      m.after (Call.send id data wr) = m) ∧
    (∀ sinceSeq maxBytes timeout start ticks,
      PTYRead m id sinceSeq maxBytes timeout start ticks =
        some { chunks := [], closed := false, err := some "no such session" } ∧
      m.after (Call.read id sinceSeq maxBytes timeout start ticks) = m) ∧
    (∀ rows cols osErr,
      PTYResize m id rows cols osErr = { err := some "no such session", actions := [] } ∧
      m.after (Call.resize id rows cols osErr) = m) ∧
    (∀ g,
      PTYClose m id g = (m, { err := none, actions := [] }) ∧
      m.after (Call.close id g) = m) := by
  refine ⟨fun data wr => ⟨PTYSend_unknown m id data wr hunknown, rfl⟩, ?_, ?_, ?_⟩
  · intro sinceSeq maxBytes timeout start ticks
    exact ⟨by simp [PTYRead, hunknown], rfl⟩
  · intro rows cols osErr
    exact ⟨by simp [PTYResize, hunknown], rfl⟩
  · intro g
    refine ⟨PTYClose_unknown m id g hunknown, ?_⟩
    simp [PTYManager.after, PTYClose_unknown m id g hunknown]

/-- Witness of C11: the id "zzzzzzzz" in a manager that holds one other session. -/
theorem unknown_id_not_found_witness :
    demoManager.get "zzzzzzzz" = none ∧
    PTYSend demoManager "zzzzzzzz" [10] (1, none) =
      { n := 0, err := some "no such session", actions := [] } ∧
    PTYClose demoManager "zzzzzzzz" true = (demoManager, { err := none, actions := [] }) :=
  ⟨by decide,
   ((unknown_id_not_found demoManager "zzzzzzzz" (by decide)).1 [10] (1, none)).1,
   ((unknown_id_not_found demoManager "zzzzzzzz" (by decide)).2.2.2 true).1⟩

/-- C12: for every registered id, Close returns nil and removes that id from the
registry, leaving every other entry and the configuration unchanged; a second
Close of the id returns nil, asks nothing of the operating system and leaves
the manager as it is; and a Send to the id after Close returns 0 bytes and the
error "no such session". -/
theorem close_removes_id_and_is_idempotent (m : PTYManager) (id : String) (g1 g2 : Bool)
    (data : List Byte) (wr : Nat × Option String) (hreg : m.get id ≠ none) :
    (PTYClose m id g1).2.err = none ∧
    (PTYClose m id g1).1.get id = none ∧
    (∀ k, k ≠ id → (PTYClose m id g1).1.get k = m.get k) ∧
    (PTYClose m id g1).1.baseDir = m.baseDir ∧ (PTYClose m id g1).1.maxBytes = m.maxBytes ∧
    PTYClose (PTYClose m id g1).1 id g2 = ((PTYClose m id g1).1, { err := none, actions := [] }) ∧
    PTYSend (PTYClose m id g1).1 id data wr =
      { n := 0, err := some "no such session", actions := [] } := by
  obtain ⟨hm, herr⟩ := PTYClose_known_mgr m id g1 hreg
  have hgone : (PTYClose m id g1).1.get id = none := by
    rw [hm, get_delete]; simp
  refine ⟨herr, hgone, ?_, ?_, ?_, PTYClose_unknown _ id g2 hgone, PTYSend_unknown _ id data wr hgone⟩
  · intro k hk
    rw [hm, get_delete, if_neg hk]
  · rw [hm]; rfl
  · rw [hm]; rfl

/-- Witness of C12: closing the registered session of `demoManager` twice. -/
theorem close_removes_id_and_is_idempotent_witness :
    demoManager.get "a1b2c3d4" ≠ none ∧
    (PTYClose demoManager "a1b2c3d4" false).1.sessions = [] ∧
    (PTYClose demoManager "a1b2c3d4" false).2.actions =
      [OSAction.signalInterrupt, OSAction.kill, OSAction.closePTY, OSAction.closeLog] ∧
    PTYClose (PTYClose demoManager "a1b2c3d4" false).1 "a1b2c3d4" true =
      ((PTYClose demoManager "a1b2c3d4" false).1, { err := none, actions := [] }) :=
  ⟨by decide, by decide, by decide,
   (close_removes_id_and_is_idempotent demoManager "a1b2c3d4" false true [10] (1, none)
      (by decide)).2.2.2.2.2.1⟩

/-! ## Open -/

theorem ptyOpenEnv_foldl (acc : List String) (l : List (String × String)) :
    l.foldl (fun (envv : Option (List String)) kv => some (envv.getD [] ++ [kv.1 ++ "=" ++ kv.2]))
      (some acc) = some (acc ++ l.map (fun kv => kv.1 ++ "=" ++ kv.2)) := by
  induction l generalizing acc with
  | nil => simp
  | cons kv rest ih => simp [List.foldl_cons, ih]

theorem shellRunEnv_foldl (acc : List String) (l : List (String × String)) :
    l.foldl (fun e kv => e ++ [kv.1 ++ "=" ++ kv.2]) acc =
      acc ++ l.map (fun kv => kv.1 ++ "=" ++ kv.2) := by
  induction l generalizing acc with
  | nil => simp
  | cons kv rest ih => simp [List.foldl_cons, ih]

/-- C13 (the code at the failing input): for the nil map and for the empty map
PTYOpen leaves `cmd.Env` nil, so the child gets the whole environment of the
daemon, whereas ShellRun sets an empty non-nil slice and its child gets an
empty environment; for a map with at least one entry both build the slice of
its KEY=VALUE strings, which is then the child's environment. -/
theorem open_env_nil_for_empty_map :
    (∀ m name args rows cols cwd w,
      (PTYOpen m (name :: args) rows cols cwd none w).actions.head? =
        some (OSAction.start { path := name, args := name :: args, dir := cwd, env := none }) ∧
      (PTYOpen m (name :: args) rows cols cwd (some []) w).actions.head? =
        some (OSAction.start { path := name, args := name :: args, dir := cwd, env := none })) ∧
    (∀ name args cwd daemonEnv,
      Cmd.environ { path := name, args := args, dir := cwd, env := ptyOpenEnv (some []) } daemonEnv
        = daemonEnv ∧
      Cmd.environ { path := name, args := args, dir := cwd, env := ptyOpenEnv none } daemonEnv
        = daemonEnv ∧
      Cmd.environ { path := name, args := args, dir := cwd, env := shellRunEnv (some []) } daemonEnv
        = [] ∧
      Cmd.environ { path := name, args := args, dir := cwd, env := shellRunEnv none } daemonEnv
        = []) ∧
    Cmd.environ { path := "/bin/sh", args := ["/bin/sh"], dir := "", env := ptyOpenEnv (some []) }
      ["PATH=/usr/bin", "HOME=/root"] ≠ [] ∧
    (∀ kv rest,
      ptyOpenEnv (some (kv :: rest)) = some ((kv :: rest).map (fun e => e.1 ++ "=" ++ e.2)) ∧
      shellRunEnv (some (kv :: rest)) = some ((kv :: rest).map (fun e => e.1 ++ "=" ++ e.2))) := by
  refine ⟨?_, ?_, by decide, ?_⟩
  · intro m name args rows cols cwd w
    constructor <;> (simp only [PTYOpen]; cases w.startErr <;> rfl)
  · intro name args cwd daemonEnv
    exact ⟨rfl, rfl, rfl, rfl⟩
  · intro kv rest
    constructor
    · simp only [ptyOpenEnv, Option.getD_some, List.foldl_cons, Option.getD_none, List.nil_append]
      rw [ptyOpenEnv_foldl]; simp
    · simp only [shellRunEnv, List.foldl_cons, List.nil_append]
      rw [shellRunEnv_foldl]; simp

/-- C14: Open with an empty argv returns the empty id and the error "argv must
not be empty", asks nothing of the operating system (no process is started)
and leaves the manager unchanged. -/
theorem open_empty_argv_rejected (m : PTYManager) (rows cols : Int) (cwd : String)
    (env : Option (List (String × String))) (w : OpenWorld) :
    PTYOpen m [] rows cols cwd env w =
      { mgr := m, id := "", err := some "argv must not be empty", actions := [] } := rfl

theorem PTYOpen_ok (m : PTYManager) (argv : List String) (rows cols : Int) (cwd : String)
    (env : Option (List (String × String))) (w : OpenWorld)
    (hargv : argv ≠ []) (hstart : w.startErr = none) :
    (PTYOpen m argv rows cols cwd env w).err = none ∧
    (PTYOpen m argv rows cols cwd env w).id = randID w.draw ∧
    (PTYOpen m argv rows cols cwd env w).mgr =
      m.insert (randID w.draw) (newSession (randID w.draw) ((m.baseDir != "") && w.logOpens)) ∧
    (PTYOpen m argv rows cols cwd env w).actions =
      [OSAction.start { path := argv.headD "", args := argv, dir := cwd, env := ptyOpenEnv env },
       OSAction.setsize (toUint16 (if rows ≤ 0 then 40 else rows))
        (toUint16 (if cols ≤ 0 then 120 else cols))] ++
      (if (m.baseDir != "") = true then
        [OSAction.mkdirAll m.baseDir,
         OSAction.openLog (m.baseDir ++ "/" ++ randID w.draw ++ ".log")]
       else []) := by
  cases argv with
  | nil => exact absurd rfl hargv
  | cons name args =>
    simp only [PTYOpen, hstart, List.headD_cons]
    exact ⟨trivial, trivial, trivial, trivial⟩

theorem PTYOpen_err_none (m : PTYManager) (argv : List String) (rows cols : Int) (cwd : String)
    (env : Option (List (String × String))) (w : OpenWorld)
    (h : (PTYOpen m argv rows cols cwd env w).err = none) :
    argv ≠ [] ∧ w.startErr = none := by
  cases argv with
  | nil => simp [PTYOpen] at h
  | cons name args =>
    refine ⟨by simp, ?_⟩
    cases hs : w.startErr with
    | none => rfl
    | some e => simp [PTYOpen, hs] at h

/-- Counterexample to C15: when the random generator draws the id of a
registered session, a successful Open returns that id and the registry entry
of the session, which still exists, is replaced by the new, empty one. -/
theorem open_reuses_registered_id_counterexample :
    (PTYOpen busyManager ["/bin/sh"] 24 80 "" none zeroWorld).err = none ∧
    (PTYOpen busyManager ["/bin/sh"] 24 80 "" none zeroWorld).id = "aaaaaaaa" ∧
    busyManager.get "aaaaaaaa" =
      some (appendAll (newSession "aaaaaaaa" true) [([104, 105], 10)]) ∧
    (PTYOpen busyManager ["/bin/sh"] 24 80 "" none zeroWorld).mgr.get "aaaaaaaa" =
      some (newSession "aaaaaaaa" true) ∧
    (PTYOpen busyManager ["/bin/sh"] 24 80 "" none zeroWorld).mgr.get "aaaaaaaa" ≠
      busyManager.get "aaaaaaaa" := by
  decide

/-- C15 as amended: the id that a successful Open returns is the one randID
draws from the random generator, whatever the registry holds; the new session
is registered under it and the entry of every other id is unchanged, so that
no session is replaced when the drawn id is not in the registry. -/
theorem open_registers_drawn_id (m : PTYManager) (argv : List String) (rows cols : Int)
    (cwd : String) (env : Option (List (String × String))) (w : OpenWorld)
    (hok : (PTYOpen m argv rows cols cwd env w).err = none) :
    (PTYOpen m argv rows cols cwd env w).id = randID w.draw ∧
    (PTYOpen m argv rows cols cwd env w).mgr.get (randID w.draw) =
      some (newSession (randID w.draw) ((m.baseDir != "") && w.logOpens)) ∧
    (∀ k, k ≠ randID w.draw → (PTYOpen m argv rows cols cwd env w).mgr.get k = m.get k) ∧
    (m.get (randID w.draw) = none →
      ∀ k s, m.get k = some s → (PTYOpen m argv rows cols cwd env w).mgr.get k = some s) := by
  obtain ⟨hargv, hstart⟩ := PTYOpen_err_none m argv rows cols cwd env w hok
  obtain ⟨_, hid, hmgr, _⟩ := PTYOpen_ok m argv rows cols cwd env w hargv hstart
  refine ⟨hid, ?_, ?_, ?_⟩
  · rw [hmgr, get_insert]; simp
  · intro k hk
    rw [hmgr, get_insert, if_neg hk]
  · intro hfresh k s hks
    have hk : k ≠ randID w.draw := by
      rintro rfl
      rw [hfresh] at hks
      cases hks
    rw [hmgr, get_insert, if_neg hk, hks]

/-- Witness of C15 as amended: an Open on a manager holding the session
"a1b2c3d4", with the draws giving "aaaaaaaa". -/
theorem open_registers_drawn_id_witness :
    (PTYOpen demoManager ["/bin/sh"] 24 80 "" none zeroWorld).id = "aaaaaaaa" ∧
    (PTYOpen demoManager ["/bin/sh"] 24 80 "" none zeroWorld).mgr.get "a1b2c3d4" =
      demoManager.get "a1b2c3d4" :=
  ⟨by decide,
   (open_registers_drawn_id demoManager ["/bin/sh"] 24 80 "" none zeroWorld (by decide)).2.2.1
      "a1b2c3d4" (by decide)⟩

theorem letters_getD_alnum :
    ∀ k : Fin 36, ('a' ≤ letters.getD k.val 'a' ∧ letters.getD k.val 'a' ≤ 'z') ∨
      ('0' ≤ letters.getD k.val 'a' ∧ letters.getD k.val 'a' ≤ '9') := by
  decide

/-- C16: whatever values the random generator produces, randID returns a string
of exactly 8 characters, each a lowercase letter a-z or a digit 0-9, namely the
letter of the constant `letters` at the index drawn. -/
theorem randID_eight_lowercase_alnum (draw : Nat → Fin 36) :
    (randID draw).length = 8 ∧
    (∀ c ∈ (randID draw).data, ('a' ≤ c ∧ c ≤ 'z') ∨ ('0' ≤ c ∧ c ≤ '9')) ∧
    (∀ i, i < 8 → (randID draw).data.get? i = letters.get? (draw i).val) := by
  refine ⟨by simp [randID, String.length], ?_, ?_⟩
  · intro c hc
    simp only [randID, List.mem_map, List.mem_range] at hc
    obtain ⟨i, _, rfl⟩ := hc
    exact letters_getD_alnum (draw i)
  · intro i hi
    have hlen : (draw i).val < letters.length := by
      have : letters.length = 36 := by decide
      rw [this]; exact (draw i).isLt
    simp only [randID, List.get?_eq_getElem?, List.getElem?_map, List.getElem?_range hi,
      Option.map_some', List.getD_eq_getElem?_getD, List.getElem?_eq_getElem hlen,
      Option.getD_some]

theorem toUint16_of_inRange (x : Int) (h0 : 0 ≤ x) (h1 : x ≤ 65535) : toUint16 x = x.toNat := by
  unfold toUint16
  rw [Int.emod_eq_of_lt h0 (by omega)]

/-- C17: for rows and cols not exceeding 65535, a successful Open sets the window
size of the new PTY once, to rows' by cols' with rows' = 40 if rows <= 0 else
rows and cols' = 120 if cols <= 0 else cols, each dimension on its own. -/
theorem open_window_size_defaults (m : PTYManager) (argv : List String) (rows cols : Int)
    (cwd : String) (env : Option (List (String × String))) (w : OpenWorld)
    (hok : (PTYOpen m argv rows cols cwd env w).err = none)
    (hrows : rows ≤ 65535) (hcols : cols ≤ 65535) :
    (PTYOpen m argv rows cols cwd env w).actions.get? 1 =
      some (OSAction.setsize (if rows ≤ 0 then 40 else rows.toNat)
        (if cols ≤ 0 then 120 else cols.toNat)) ∧
    ∀ r c, OSAction.setsize r c ∈ (PTYOpen m argv rows cols cwd env w).actions →
      r = (if rows ≤ 0 then 40 else rows.toNat) ∧ c = (if cols ≤ 0 then 120 else cols.toNat) := by
  obtain ⟨hargv, hstart⟩ := PTYOpen_err_none m argv rows cols cwd env w hok
  obtain ⟨_, _, _, hact⟩ := PTYOpen_ok m argv rows cols cwd env w hargv hstart
  have hr : toUint16 (if rows ≤ 0 then 40 else rows) = (if rows ≤ 0 then 40 else rows.toNat) := by
    split
    · rfl
    · exact toUint16_of_inRange rows (by omega) hrows
  have hc : toUint16 (if cols ≤ 0 then 120 else cols) = (if cols ≤ 0 then 120 else cols.toNat) := by
    split
    · rfl
    · exact toUint16_of_inRange cols (by omega) hcols
  rw [hact, hr, hc]
  refine ⟨by simp, ?_⟩
  intro r c hmem
  simp only [List.cons_append, List.nil_append, List.mem_cons] at hmem
  rcases hmem with h | h | h
  · cases h
  · cases h; exact ⟨rfl, rfl⟩
  · split at h
    · simp at h
    · simp at h

/-- Witness of C17: rows = 0 takes the default 40 while cols = 80 is kept. -/
theorem open_window_size_defaults_witness :
    (PTYOpen NewPTYManager ["/bin/sh"] 0 80 "" none zeroWorld).actions.get? 1 =
      some (OSAction.setsize (if (0 : Int) ≤ 0 then 40 else (0 : Int).toNat)
        (if (80 : Int) ≤ 0 then 120 else (80 : Int).toNat)) ∧
    (PTYOpen NewPTYManager ["/bin/sh"] 0 80 "" none zeroWorld).actions.get? 1 =
      some (OSAction.setsize 40 80) :=
  ⟨(open_window_size_defaults NewPTYManager ["/bin/sh"] 0 80 "" none zeroWorld
      (by decide) (by decide) (by decide)).1,
   by decide⟩

/-- Counterexample to C18: a session whose log file could not be opened runs
with no log file, yet LogPath returns its path and true, not ("", false). -/
theorem logPath_without_log_file_counterexample :
    (PTYOpen NewPTYManager ["/bin/sh"] 24 80 "" none noLogWorld).err = none ∧
    (PTYOpen NewPTYManager ["/bin/sh"] 24 80 "" none noLogWorld).id = "aaaaaaaa" ∧
    ((PTYOpen NewPTYManager ["/bin/sh"] 24 80 "" none noLogWorld).mgr.get "aaaaaaaa").map
      (fun s => s.logf) = some none ∧
    LogPath (PTYOpen NewPTYManager ["/bin/sh"] 24 80 "" none noLogWorld).mgr "aaaaaaaa" =
      ("/tmp/aiterm/sessions/aaaaaaaa.log", true) ∧
    LogPath (PTYOpen NewPTYManager ["/bin/sh"] 24 80 "" none noLogWorld).mgr "aaaaaaaa" ≠
      ("", false) := by
  decide

/-- C18 as amended: LogPath(id) returns ("", false) when id is not registered or
no base directory is configured, and otherwise (<base_dir>/<id>.log, true),
whether or not the log file of the session could be opened; after a successful
Open with a base directory that is the path of the log file Open asked to
open; the result is a function of id and the manager alone. -/
theorem logPath_registered_and_configured (m : PTYManager) (id : String) :
    ((m.get id = none ∨ m.baseDir = "") → LogPath m id = ("", false)) ∧
    (m.get id ≠ none → m.baseDir ≠ "" → LogPath m id = (m.baseDir ++ "/" ++ id ++ ".log", true)) ∧
    (∀ argv rows cols cwd env w,
      (PTYOpen m argv rows cols cwd env w).err = none → m.baseDir ≠ "" →
      LogPath (PTYOpen m argv rows cols cwd env w).mgr (PTYOpen m argv rows cols cwd env w).id =
        (m.baseDir ++ "/" ++ (PTYOpen m argv rows cols cwd env w).id ++ ".log", true) ∧
      ∀ path, OSAction.openLog path ∈ (PTYOpen m argv rows cols cwd env w).actions ↔
        path = (LogPath (PTYOpen m argv rows cols cwd env w).mgr
          (PTYOpen m argv rows cols cwd env w).id).1) := by
  have hknown : ∀ (m : PTYManager) (id : String), m.get id ≠ none → m.baseDir ≠ "" →
      LogPath m id = (m.baseDir ++ "/" ++ id ++ ".log", true) := by
    intro m id h1 h2
    unfold LogPath
    cases hg : m.get id with
    | none => exact absurd hg h1
    | some s => simp [h2]
  refine ⟨?_, hknown m id, ?_⟩
  · rintro (h | h)
    · simp [LogPath, h]
    · unfold LogPath
      cases m.get id <;> simp [h]
  · intro argv rows cols cwd env w hok hbase
    obtain ⟨hargv, hstart⟩ := PTYOpen_err_none m argv rows cols cwd env w hok
    obtain ⟨_, hid, hmgr, hact⟩ := PTYOpen_ok m argv rows cols cwd env w hargv hstart
    have hlp : LogPath (PTYOpen m argv rows cols cwd env w).mgr
        (PTYOpen m argv rows cols cwd env w).id =
        (m.baseDir ++ "/" ++ (PTYOpen m argv rows cols cwd env w).id ++ ".log", true) := by
      have := hknown (PTYOpen m argv rows cols cwd env w).mgr (PTYOpen m argv rows cols cwd env w).id
        (by rw [hmgr, hid, get_insert]; simp) (by rw [hmgr]; exact hbase)
      rw [this, hmgr]; rfl
    refine ⟨hlp, ?_⟩
    intro path
    have hb : (m.baseDir != "") = true := by simpa using hbase
    rw [hlp, hact, hid, if_pos hb]
    simp

/-- Witness of C18 as amended: the session of `demoManager`, and an Open on it. -/
theorem logPath_registered_and_configured_witness :
    LogPath demoManager "a1b2c3d4" =
      (demoManager.baseDir ++ "/" ++ "a1b2c3d4" ++ ".log", true) ∧
    LogPath demoManager "a1b2c3d4" = ("/tmp/aiterm/sessions/a1b2c3d4.log", true) ∧
    LogPath (PTYOpen demoManager ["/bin/sh"] 24 80 "" none zeroWorld).mgr
        (PTYOpen demoManager ["/bin/sh"] 24 80 "" none zeroWorld).id =
      (demoManager.baseDir ++ "/" ++
        (PTYOpen demoManager ["/bin/sh"] 24 80 "" none zeroWorld).id ++ ".log", true) :=
  ⟨(logPath_registered_and_configured demoManager "a1b2c3d4").2.1 (by decide) (by decide),
   by decide,
   ((logPath_registered_and_configured demoManager "a1b2c3d4").2.2 ["/bin/sh"] 24 80 "" none
      zeroWorld (by decide) (by decide)).1⟩

/-! ## The session tasks -/

theorem Keeps.refl (a : PTYSession) : Keeps a a := ⟨fun h => h, fun _ h => h⟩

theorem Keeps.trans {a b c : PTYSession} (h1 : Keeps a b) (h2 : Keeps b c) : Keeps a c :=
  ⟨fun h => h2.1 (h1.1 h), fun rc h => h2.2 rc (h1.2 rc h)⟩

theorem appendChunk_closed_exitRC (s : PTYSession) (d : List Byte) (now : Int) :
    (appendChunk s d now).closed = s.closed ∧ (appendChunk s d now).exitRC = s.exitRC ∧
    (appendChunk s d now).closedCh = s.closedCh :=
  ⟨rfl, rfl, rfl⟩

theorem closeCh_fields (s : PTYSession) :
    (closeCh s).sess.closed = s.closed ∧ (closeCh s).sess.exitRC = s.exitRC := by
  unfold closeCh
  split <;> exact ⟨rfl, rfl⟩

/-- The state an iteration of the reader reaches before it looks at the error. -/
theorem readerIter_none_fields (s : PTYSession) (data : List Byte) (now : Int) (logged : Nat) :
    (readerIter s data none now logged).out.sess.closed = s.closed ∧
    (readerIter s data none now logged).out.sess.exitRC = s.exitRC := by
  simp only [readerIter]
  split <;> exact ⟨rfl, rfl⟩

theorem readerIter_other_eq (s : PTYSession) (data : List Byte) (msg : String) (now : Int)
    (logged : Nat) :
    (readerIter s data (some (ReadErr.other msg)) now logged).out =
      (readerIter s data none now logged).out := rfl

theorem readerIter_eof_fields (s : PTYSession) (data : List Byte) (now : Int) (logged : Nat) :
    (readerIter s data (some ReadErr.eof) now logged).out.sess.closed = true ∧
    (readerIter s data (some ReadErr.eof) now logged).out.sess.exitRC = s.exitRC := by
  simp only [readerIter]
  refine ⟨?_, ?_⟩
  · rw [(closeCh_fields _).1]
  · rw [(closeCh_fields _).2]
    split <;> rfl

theorem waiter_fields (s : PTYSession) (rc : Int) :
    (waiter s rc).closed = true ∧
    (waiter s rc).exitRC = (if s.exitRC = none then some rc else s.exitRC) := by
  unfold waiter
  by_cases h : s.exitRC = none <;> simp only [h, if_true, if_false] <;>
    split <;> exact ⟨rfl, rfl⟩

theorem step_keeps (s : PTYSession) (e : SessStep) : Keeps s (s.step e).sess := by
  cases e with
  | readerRead data err now logged =>
    simp only [PTYSession.step]
    cases err with
    | none =>
      obtain ⟨h1, h2⟩ := readerIter_none_fields s data now logged
      exact ⟨fun h => by rw [h1]; exact h, fun rc h => by rw [h2]; exact h⟩
    | some re =>
      cases re with
      | eof =>
        obtain ⟨h1, h2⟩ := readerIter_eof_fields s data now logged
        exact ⟨fun _ => h1, fun rc h => by rw [h2]; exact h⟩
      | other msg =>
        rw [readerIter_other_eq]
        obtain ⟨h1, h2⟩ := readerIter_none_fields s data now logged
        exact ⟨fun h => by rw [h1]; exact h, fun rc h => by rw [h2]; exact h⟩
  | reaperExit rc =>
    simp only [PTYSession.step]
    obtain ⟨h1, h2⟩ := waiter_fields s rc
    refine ⟨fun _ => h1, fun r h => ?_⟩
    rw [h2, if_neg (by rw [h]; simp), h]
  | read _ _ _ _ _ _ => exact Keeps.refl s

theorem states_head (s : PTYSession) (steps : List SessStep) :
    (s.states steps).head? = some s := by
  cases steps with
  | nil => rfl
  | cons e es =>
    simp only [PTYSession.states]
    split <;> rfl

theorem states_chain (s : PTYSession) (steps : List SessStep) :
    (s.states steps).Chain' Keeps := by
  induction steps generalizing s with
  | nil => simp [PTYSession.states]
  | cons e es ih =>
    simp only [PTYSession.states]
    split
    · simp [List.chain'_cons, step_keeps]
    · apply List.Chain'.cons' (ih _)
      intro y hy
      rw [states_head] at hy
      cases hy
      exact step_keeps s e

/-- C19: along every sequence of session steps (reader iterations with or
without data, ending in end-of-file or another error or none; the reaper; Read
iterations), from any state, every later state keeps closed = true once it is
true, and keeps the value of exit_rc once it holds one; so does each single
step. -/
theorem closed_and_exit_rc_are_stable (s : PTYSession) (steps : List SessStep) :
    (s.states steps).Pairwise
      (fun a b => (a.closed = true → b.closed = true) ∧
        ∀ rc, a.exitRC = some rc → b.exitRC = some rc) ∧
    (∀ e, (s.closed = true → (s.step e).sess.closed = true) ∧
      ∀ rc, s.exitRC = some rc → (s.step e).sess.exitRC = some rc) := by
  haveI : IsTrans PTYSession Keeps := ⟨fun _ _ _ => Keeps.trans⟩
  have hpair : (s.states steps).Pairwise Keeps :=
    List.chain'_iff_pairwise.mp (states_chain s steps)
  exact ⟨hpair, fun e => step_keeps s e⟩

/-- Counterexample to C20: on a read error other than end-of-file the reader
task exits and the closed flag is still false. -/
theorem reader_error_leaves_open_counterexample :
    (readerIter (newSession "a1b2c3d4" true) []
      (some (ReadErr.other "read /dev/ptmx: input/output error")) 0 0).exits = true ∧
    (readerIter (newSession "a1b2c3d4" true) []
      (some (ReadErr.other "read /dev/ptmx: input/output error")) 0 0).out.sess.closed = false := by
  decide

/-- C20 as amended: when a read of the PTY master returns end-of-file, the reader
task sets the closed flag of the session to true and exits; when it returns any
other error, the reader task exits in the state it would continue with had
there been no error, the closed flag as it was; without an error it goes on. -/
theorem reader_closes_on_eof_only (s : PTYSession) (data : List Byte) (now : Int)
    (logged : Nat) :
    ((readerIter s data (some ReadErr.eof) now logged).exits = true ∧
      (readerIter s data (some ReadErr.eof) now logged).out.sess.closed = true) ∧
    (∀ msg,
      (readerIter s data (some (ReadErr.other msg)) now logged).exits = true ∧
      (readerIter s data (some (ReadErr.other msg)) now logged).out =
        (readerIter s data none now logged).out ∧
      (readerIter s data (some (ReadErr.other msg)) now logged).out.sess.closed = s.closed) ∧
    (readerIter s data none now logged).exits = false := by
  refine ⟨⟨rfl, (readerIter_eof_fields s data now logged).1⟩, ?_, rfl⟩
  intro msg
  refine ⟨rfl, rfl, ?_⟩
  rw [readerIter_other_eq]
  exact (readerIter_none_fields s data now logged).1

/-! ## Eviction: what is kept -/

/-- The loop keeps the tail from the index after the first one, counted from the
end, at which the running total exceeds the cap, or everything. -/
theorem enforceCapLoop_spec (cs : List Chunk) (k total : Nat) (hk : k ≤ cs.length)
    (htot : total = totalBytes (cs.drop k)) (hle : total ≤ capSize) :
    ∃ j, j ≤ k ∧ enforceCapLoop cs k total = cs.drop j ∧ totalBytes (cs.drop j) ≤ capSize ∧
      (j = 0 ∨ (0 < j ∧ capSize < totalBytes (cs.drop (j - 1)))) := by
  induction k generalizing total with
  | zero =>
    refine ⟨0, le_refl _, by simp [enforceCapLoop], ?_, Or.inl rfl⟩
    rw [← htot]; exact hle
  | succ i ih =>
    simp only [enforceCapLoop]
    have hdrop := totalBytes_drop_succ cs i hk
    split
    · rename_i hgt
      refine ⟨i + 1, le_refl _, rfl, by rw [← htot]; exact hle, Or.inr ⟨Nat.succ_pos i, ?_⟩⟩
      rw [Nat.add_sub_cancel, hdrop, ← htot]
      omega
    · rename_i hno
      obtain ⟨j, hj, h1, h2, h3⟩ :=
        ih (total + ((cs.get? i).map (fun c => c.Data.length)).getD 0) (Nat.le_of_succ_le hk)
          (by rw [hdrop, htot]; omega) (by omega)
      exact ⟨j, Nat.le_succ_of_le hj, h1, h2, h3⟩

theorem enforceCap_spec (s : PTYSession) :
    ∃ j, j ≤ s.chunks.length ∧ (enforceCap s).chunks = s.chunks.drop j ∧
      totalBytes (s.chunks.drop j) ≤ capSize ∧
      (j = 0 ∨ (0 < j ∧ capSize < totalBytes (s.chunks.drop (j - 1)))) :=
  enforceCapLoop_spec s.chunks s.chunks.length 0 (le_refl _) (by simp [totalBytes])
    (Nat.zero_le _)

theorem totalBytes_drop_le (cs : List Chunk) (n : Nat) :
    totalBytes (cs.drop n) ≤ totalBytes cs := by
  conv_rhs => rw [← List.take_append_drop n cs]
  rw [totalBytes_append]
  exact Nat.le_add_left _ _

theorem totalBytes_drop_anti (cs : List Chunk) {a b : Nat} (h : a ≤ b) :
    totalBytes (cs.drop b) ≤ totalBytes (cs.drop a) := by
  have : cs.drop b = (cs.drop a).drop (b - a) := by
    rw [List.drop_drop]; congr 1; omega
  rw [this]
  exact totalBytes_drop_le _ _

/-- When the newest chunk alone is within the cap, eviction keeps it as the last
element of the buffer. -/
theorem enforceCap_keeps_last (s : PTYSession) (init : List Chunk) (c : Chunk)
    (hs : s.chunks = init ++ [c]) (hc : c.Data.length ≤ capSize) :
    (enforceCap s).chunks.getLast? = some c := by
  obtain ⟨j, hj, hkeep, _, hlast⟩ := enforceCap_spec s
  have hlen : s.chunks.length = init.length + 1 := by rw [hs]; simp
  have hjlt : j < s.chunks.length := by
    rcases hlast with h0 | ⟨hpos, hgt⟩
    · omega
    · by_contra hge
      have hjeq : j - 1 = init.length := by omega
      rw [hjeq, hs, List.drop_left] at hgt
      rw [totalBytes_cons, totalBytes_nil] at hgt
      omega
  rw [hkeep, List.getLast?_drop, if_neg (by omega), hs]
  simp

/-- C28: for every buffer, enforceCap leaves a suffix of the buffer, the chunks
themselves in their order, whose total data length is at most 1 MiB and which
is the longest such suffix; the chunk dropped last, put back in front of what
is kept, would exceed the cap; a buffer whose total is at most 1 MiB is left
unchanged; no other field of the session changes. -/
theorem enforceCap_longest_suffix_within_cap (s : PTYSession) :
    (enforceCap s).chunks <:+ s.chunks ∧
    totalBytes (enforceCap s).chunks ≤ 1048576 ∧
    (∀ t, t <:+ s.chunks → totalBytes t ≤ 1048576 → t.length ≤ (enforceCap s).chunks.length) ∧
    (∀ dropped c, s.chunks = dropped ++ c :: (enforceCap s).chunks →
      1048576 < totalBytes (c :: (enforceCap s).chunks)) ∧
    (totalBytes s.chunks ≤ 1048576 → (enforceCap s).chunks = s.chunks) ∧
    enforceCap s = { s with chunks := (enforceCap s).chunks } := by
  obtain ⟨j, hj, hkeep, hle, hlast⟩ := enforceCap_spec s
  rw [capSize_eq] at hle hlast
  rw [hkeep]
  have hlong : ∀ t, t <:+ s.chunks → totalBytes t ≤ 1048576 →
      t.length ≤ (s.chunks.drop j).length := by
    intro t ht htot
    rw [List.length_drop]
    rcases hlast with h0 | ⟨hpos, hgt⟩
    · rw [h0]; exact ht.length_le
    · by_contra hcon
      have hlen := ht.length_le
      have hteq := List.suffix_iff_eq_drop.mp ht
      have hanti := totalBytes_drop_anti s.chunks
        (show s.chunks.length - t.length ≤ j - 1 by omega)
      rw [← hteq] at hanti
      omega
  refine ⟨List.drop_suffix _ _, hle, hlong, ?_, ?_, by rw [← hkeep]; rfl⟩
  · intro dropped c hsplit
    have hlen : s.chunks.length = dropped.length + 1 + (s.chunks.length - j) := by
      conv_lhs => rw [hsplit]
      simp only [List.length_append, List.length_cons, List.length_drop]
      omega
    rcases hlast with h0 | ⟨hpos, hgt⟩
    · omega
    · have hj1 : j - 1 = dropped.length := by omega
      have : s.chunks.drop (j - 1) = c :: s.chunks.drop j := by
        conv_lhs => rw [hsplit, hj1, List.drop_left]
      rw [← this]; exact hgt
  · intro hfit
    rcases hlast with h0 | ⟨hpos, hgt⟩
    · rw [h0]; rfl
    · have := totalBytes_drop_le s.chunks (j - 1)
      omega

/-- The bound of 1 MiB on the newest chunk is the exact limit of the loop: were a
chunk larger than the cap appended, the first test of the loop would already
exceed the cap and the whole buffer would go. -/
theorem appendChunk_oversized (s : PTYSession) (data : List Byte) (now : Int)
    (h : capSize < data.length) : (appendChunk s data now).chunks = [] := by
  have hget : (s.chunks ++ [newChunk s data now]).get? s.chunks.length =
      some (newChunk s data now) := by
    simp
  show enforceCapLoop (s.chunks ++ [newChunk s data now])
    (s.chunks ++ [newChunk s data now]).length 0 = []
  rw [List.length_append, List.length_singleton]
  simp only [enforceCapLoop, hget, Option.map_some', Option.getD_some, Nat.zero_add]
  rw [if_pos (show (newChunk s data now).Data.length > capSize from h)]
  simp

/-- C29: for every non-empty buffer whose most recently appended chunk is
within the cap of 1 MiB, eviction leaves that chunk in the buffer, unchanged
and as the last element, whatever the older chunks total, and does not empty
the buffer.  Every chunk the reader appends is such a chunk, its reads being of
at most 4096 bytes: after each reader append the chunk just appended is the
last element of the buffer, and after any sequence of one or more appends the
buffer is not empty. -/
theorem eviction_keeps_newest_chunk (s : PTYSession) (init : List Chunk) (c : Chunk)
    (hs : s.chunks = init ++ [c]) (hc : c.Data.length ≤ 1048576) :
    (enforceCap s).chunks.getLast? = some c ∧
    c ∈ (enforceCap s).chunks ∧
    (enforceCap s).chunks ≠ [] ∧
    (∀ t data now, data.length ≤ 4096 →
      (appendChunk t data now).chunks.getLast? = some (newChunk t data now) ∧
      (newChunk t data now).Data = data ∧
      (appendChunk t data now).chunks ≠ []) ∧
    (∀ sid lo reads, reads ≠ [] → (∀ r ∈ reads, r.1.length ≤ 4096) →
      (appendAll (newSession sid lo) reads).chunks ≠ []) := by
  have hlast := enforceCap_keeps_last s init c hs (by rw [capSize_eq]; exact hc)
  have hstep : ∀ (t : PTYSession) (data : List Byte) (now : Int), data.length ≤ 4096 →
      (appendChunk t data now).chunks.getLast? = some (newChunk t data now) := by
    intro t data now hdata
    apply enforceCap_keeps_last (pushChunk t data now) t.chunks (newChunk t data now) rfl
    rw [capSize_eq]
    show data.length ≤ 1048576
    omega
  have hne : ∀ (l : List Chunk) (x : Chunk), l.getLast? = some x → l ≠ [] := by
    intro l x hl hnil
    rw [hnil] at hl
    cases hl
  refine ⟨hlast, List.mem_of_mem_getLast? hlast, hne _ _ hlast, ?_, ?_⟩
  · intro t data now hdata
    exact ⟨hstep t data now hdata, rfl, hne _ _ (hstep t data now hdata)⟩
  · intro sid lo reads hreads hsize
    rcases List.eq_nil_or_concat reads with rfl | ⟨rs, r, rfl⟩
    · exact absurd rfl hreads
    · rw [List.concat_eq_append] at hsize ⊢
      rw [appendAll_append_singleton]
      exact hne _ _ (hstep _ r.1 r.2 (hsize r (by simp)))

/-- Witness of C29: the three-chunk session, whose newest chunk has 3 bytes. -/
theorem eviction_keeps_newest_chunk_witness :
    demoSession.chunks =
      demoSession.chunks.take 2 ++
        [{ Seq := 3, Stream := "stdout", Data := [111, 107, 10], Ts := 30 }] ∧
    (enforceCap demoSession).chunks.getLast? =
      some { Seq := 3, Stream := "stdout", Data := [111, 107, 10], Ts := 30 } ∧
    (enforceCap demoSession).chunks ≠ [] :=
  ⟨by decide,
   (eviction_keeps_newest_chunk demoSession (demoSession.chunks.take 2)
      { Seq := 3, Stream := "stdout", Data := [111, 107, 10], Ts := 30 }
      (by decide) (by decide)).1,
   (eviction_keeps_newest_chunk demoSession (demoSession.chunks.take 2)
      { Seq := 3, Stream := "stdout", Data := [111, 107, 10], Ts := 30 }
      (by decide) (by decide)).2.2.1⟩

/-! ## The eviction gap -/

theorem totalBytes_producedFrom (k : Nat) (reads : List (List Byte × Int)) :
    totalBytes (producedFrom k reads) = (reads.map (fun r => r.1.length)).sum := by
  induction reads generalizing k with
  | nil => rfl
  | cons r rs ih => simp [producedFrom, totalBytes_cons, ih]

theorem producedFrom_split_seq (k : Nat) (reads : List (List Byte × Int)) (t b : List Chunk)
    (h : producedFrom k reads = t ++ b) : ∀ c ∈ b, k + t.length ≤ c.Seq := by
  induction t generalizing k reads with
  | nil =>
    intro c hc
    rw [List.nil_append] at h
    rw [← h] at hc
    simpa using producedFrom_seq_ge k reads c hc
  | cons a t ih =>
    intro c hc
    cases reads with
    | nil => simp [producedFrom] at h
    | cons r rs =>
      simp only [producedFrom, List.cons_append, List.cons.injEq] at h
      have := ih (k + 1) rs h.2 c hc
      simp only [List.length_cons]
      omega

theorem isPrefix_head?_eq {p l : List Chunk} (h : p <+: l) (hp : p ≠ []) :
    p.head? = l.head? := by
  obtain ⟨t, rfl⟩ := h
  cases p with
  | nil => exact absurd rfl hp
  | cons a as => rfl

/-- After appends of at most 4096 bytes each that total more than the cap, the
buffer is not empty and is a proper tail of what was appended. -/
theorem flood_leaves_gap (sid : String) (lo : Bool) (reads : List (List Byte × Int))
    (hsize : ∀ r ∈ reads, r.1.length ≤ 4096)
    (htotal : 1048576 < (reads.map (fun r => r.1.length)).sum) :
    (appendAll (newSession sid lo) reads).chunks ≠ [] ∧
    ∀ c ∈ (appendAll (newSession sid lo) reads).chunks, 1 < c.Seq := by
  rcases List.eq_nil_or_concat reads with rfl | ⟨rs, r, rfl⟩
  · simp at htotal
  rw [List.concat_eq_append] at hsize htotal ⊢
  have hr : r.1.length ≤ 4096 := hsize r (by simp)
  have hlastkept : (appendAll (newSession sid lo) (rs ++ [r])).chunks.getLast? =
      some (newChunk (appendAll (newSession sid lo) rs) r.1 r.2) := by
    rw [appendAll_append_singleton]
    apply enforceCap_keeps_last (pushChunk _ r.1 r.2) _ _ rfl
    rw [capSize_eq]
    show r.1.length ≤ 1048576
    omega
  have hne : (appendAll (newSession sid lo) (rs ++ [r])).chunks ≠ [] := by
    intro hnil
    rw [hnil] at hlastkept
    cases hlastkept
  refine ⟨hne, ?_⟩
  have hsuf := appendAll_chunks_suffix (newSession sid lo) (rs ++ [r])
  have hcap : totalBytes (appendAll (newSession sid lo) (rs ++ [r])).chunks ≤ 1048576 := by
    rw [appendAll_append_singleton, ← capSize_eq]
    exact enforceCap_total_le _
  obtain ⟨t, ht⟩ := hsuf
  have ht1 : producedFrom 1 (rs ++ [r]) =
      t ++ (appendAll (newSession sid lo) (rs ++ [r])).chunks := by
    rw [ht]; simp [newSession]
  have htne : t ≠ [] := by
    rintro rfl
    have := totalBytes_producedFrom 1 (rs ++ [r])
    rw [ht1, List.nil_append] at this
    omega
  intro c hc
  have := producedFrom_split_seq 1 (rs ++ [r]) t _ ht1 c hc
  have : 0 < t.length := List.length_pos.mpr htne
  omega

/-- C21: after every sequence of appends of at most 4096 bytes each (empty or
not) whose data total more than 1 MiB, the buffer is not empty and its first
chunk has seq > 1; a Read of the session with since_seq = 0 returns on its
first snapshot a list that begins with that chunk, whose seq exceeds
since_seq + 1. -/
theorem eviction_gap_visible (sid : String) (lo : Bool) (reads : List (List Byte × Int))
    (hsize : ∀ r ∈ reads, r.1.length ≤ 4096)
    (htotal : 1048576 < (reads.map (fun r => r.1.length)).sum) :
    (appendAll (newSession sid lo) reads).chunks ≠ [] ∧
    (∃ c, (appendAll (newSession sid lo) reads).chunks.head? = some c ∧ 1 < c.Seq) ∧
    (∀ m id maxBytes timeout start now late rest, m.get id ≠ none →
      ∃ r c, PTYRead m id 0 maxBytes timeout start
          ({ sess := appendAll (newSession sid lo) reads, now := now, closedLate := late } :: rest)
          = some r ∧
        r.err = none ∧ r.chunks.head? = some c ∧
        (appendAll (newSession sid lo) reads).chunks.head? = some c ∧ 0 + 1 < c.Seq) := by
  obtain ⟨hne, hseq⟩ := flood_leaves_gap sid lo reads hsize htotal
  generalize appendAll (newSession sid lo) reads = s at hne hseq
  obtain ⟨c, hc⟩ : ∃ c, s.chunks.head? = some c := by
    cases hcs : s.chunks with
    | nil => exact absurd hcs hne
    | cons a as => exact ⟨a, rfl⟩
  have hcmem : c ∈ s.chunks := List.mem_of_mem_head? hc
  refine ⟨hne, ⟨c, hc, hseq c hcmem⟩, ?_⟩
  intro m id maxBytes timeout start now late rest hknown
  have hmatch : matching 0 s.chunks = s.chunks :=
    matching_eq_self (fun d hd => by have := hseq d hd; omega)
  have hready : matching 0 s.chunks ≠ [] := by rw [hmatch]; exact hne
  refine ⟨{ chunks := collect 0 maxBytes s.chunks 0, closed := s.closed, err := none }, c,
    ?_, rfl, ?_, hc, by have := hseq c hcmem; omega⟩
  · rw [PTYRead_known _ _ _ _ _ hknown]
    simp only [readLoop]
    rw [readIter_ready 0 maxBytes timeout (start + timeout)
      { sess := s, now := now, closedLate := late } (Or.inl hready)]
  · show (collect 0 maxBytes s.chunks 0).head? = some c
    rw [isPrefix_head?_eq (collect_isPrefix 0 maxBytes s.chunks 0)
      (collect_ne_nil 0 maxBytes s.chunks 0 hready), hmatch, hc]

/-- Witness of C21: 257 reads of 4096 bytes. -/
theorem eviction_gap_visible_witness :
    (appendAll (newSession "a1b2c3d4" true) floodReads).chunks ≠ [] ∧
    (∃ c, (appendAll (newSession "a1b2c3d4" true) floodReads).chunks.head? = some c ∧
      1 < c.Seq) :=
  ⟨(eviction_gap_visible "a1b2c3d4" true floodReads
      (fun r hr => by
        rw [List.eq_of_mem_replicate hr, List.length_replicate])
      (by
        rw [floodReads, List.map_replicate, List.sum_replicate, List.length_replicate]
        decide)).1,
   (eviction_gap_visible "a1b2c3d4" true floodReads
      (fun r hr => by
        rw [List.eq_of_mem_replicate hr, List.length_replicate])
      (by
        rw [floodReads, List.map_replicate, List.sum_replicate, List.length_replicate]
        decide)).2.1⟩

/-! ## Reads of one session at different times -/

theorem matching_isPrefix_appendAll (n : Nat) (s : PTYSession) (reads : List (List Byte × Int))
    (h : EvictsNoneAbove n s reads) :
    matching n s.chunks <+: matching n (appendAll s reads).chunks := by
  induction reads generalizing s with
  | nil => exact List.prefix_refl _
  | cons r rs ih =>
    rw [appendAll_cons]
    refine List.IsPrefix.trans ?_ (ih _ h.2)
    rw [h.1]
    show matching n s.chunks <+: matching n (s.chunks ++ [newChunk s r.1 r.2])
    rw [matching_append]
    exact List.prefix_append _ _

theorem isPrefix_get?_eq {p q : List Chunk} (h : p <+: q) {i : Nat} (hi : i < p.length) :
    p.get? i = q.get? i := by
  obtain ⟨t, rfl⟩ := h
  simp only [List.get?_eq_getElem?]
  exact (List.getElem?_append_left hi).symm

/-- C22: let a Read with since_seq return on a snapshot of a session in state S
and another Read with the same since_seq return on a snapshot in a state S'
reached from S by zero or more appends that evict no chunk with seq > since_seq,
with any two values of max_bytes; then one returned list is an initial segment
of the other, so that they hold the same chunk (same seq, same data) at every
position below the shorter of the two lengths. -/
theorem reads_agree_up_to_shorter (sinceSeq : Nat) (m1 m2 timeout1 deadline1 timeout2 deadline2 : Int)
    (t1 t2 : Tick) (reads : List (List Byte × Int)) (r1 r2 : ReadResult)
    (hreach : t2.sess.chunks = (appendAll t1.sess reads).chunks)
    (hkeep : EvictsNoneAbove sinceSeq t1.sess reads)
    (h1 : readIter sinceSeq m1 timeout1 deadline1 t1 = Iter.ret r1)
    (h2 : readIter sinceSeq m2 timeout2 deadline2 t2 = Iter.ret r2) :
    (r1.chunks <+: r2.chunks ∨ r2.chunks <+: r1.chunks) ∧
    (∀ i, i < min r1.chunks.length r2.chunks.length → r1.chunks.get? i = r2.chunks.get? i) ∧
    (∀ i c1 c2, r1.chunks.get? i = some c1 → r2.chunks.get? i = some c2 →
      c1.Seq = c2.Seq ∧ c1.Data = c2.Data) := by
  have hp1 : r1.chunks <+: matching sinceSeq t2.sess.chunks := by
    rw [readIter_ret_chunks h1, hreach]
    exact (collect_isPrefix _ _ _ _).trans (matching_isPrefix_appendAll _ _ _ hkeep)
  have hp2 : r2.chunks <+: matching sinceSeq t2.sess.chunks := by
    rw [readIter_ret_chunks h2]
    exact collect_isPrefix _ _ _ _
  have hor : r1.chunks <+: r2.chunks ∨ r2.chunks <+: r1.chunks := by
    rcases Nat.le_total r1.chunks.length r2.chunks.length with hle | hle
    · exact Or.inl (List.prefix_of_prefix_length_le hp1 hp2 hle)
    · exact Or.inr (List.prefix_of_prefix_length_le hp2 hp1 hle)
  have hpos : ∀ i, i < min r1.chunks.length r2.chunks.length →
      r1.chunks.get? i = r2.chunks.get? i := by
    intro i hi
    rw [isPrefix_get?_eq hp1 (by omega), isPrefix_get?_eq hp2 (by omega)]
  refine ⟨hor, hpos, ?_⟩
  intro i c1 c2 hc1 hc2
  have hi1 : i < r1.chunks.length := by
    by_contra hcon
    rw [List.get?_eq_none.mpr (by omega)] at hc1
    cases hc1
  have hi2 : i < r2.chunks.length := by
    by_contra hcon
    rw [List.get?_eq_none.mpr (by omega)] at hc2
    cases hc2
  have := hpos i (by omega)
  rw [hc1, hc2] at this
  cases this
  exact ⟨rfl, rfl⟩

/-- Witness of C22: a Read capped at one byte on the session after one append,
and an uncapped Read after two more appends. -/
theorem reads_agree_up_to_shorter_witness :
    ((collect 0 1 (appendAll (newSession "a1b2c3d4" true) [([104, 105], 10)]).chunks 0) <+:
        demoSession.chunks ∨
      demoSession.chunks <+:
        (collect 0 1 (appendAll (newSession "a1b2c3d4" true) [([104, 105], 10)]).chunks 0)) ∧
    (collect 0 1 (appendAll (newSession "a1b2c3d4" true) [([104, 105], 10)]).chunks 0).length
      = 1 ∧ demoSession.chunks.length = 3 :=
  ⟨(reads_agree_up_to_shorter 0 1 0 0 0 0 0
      { sess := appendAll (newSession "a1b2c3d4" true) [([104, 105], 10)], now := 15,
        closedLate := false }
      (dataTick 35) [([10], 20), ([111, 107, 10], 30)]
      { chunks := collect 0 1
          (appendAll (newSession "a1b2c3d4" true) [([104, 105], 10)]).chunks 0,
        closed := false, err := none }
      { chunks := demoSession.chunks, closed := false, err := none }
      (by decide) (by decide) (by decide) (by decide)).1,
   by decide, by decide⟩

/-! ## The log file -/

/-- The chunks that one iteration of the reader appends: one when the read
yielded bytes, none otherwise. -/
theorem readerIter_facts (s : PTYSession) (data : List Byte) (err : Option ReadErr) (now : Int)
    (logged : Nat) :
    (readerIter s data err now logged).out.sess.nextSeq =
      s.nextSeq + (if data.length > 0 then [newChunk s data now] else []).length ∧
    (readerIter s data err now logged).out.sess.chunks <:+
      s.chunks ++ (if data.length > 0 then [newChunk s data now] else []) ∧
    (∀ l, s.logf = some l → data.length ≤ logged →
      (readerIter s data err now logged).out.sess.logf =
        some (l ++ ((if data.length > 0 then [newChunk s data now] else []).map
          (fun c => c.Data)).flatten)) := by
  have hclose : ∀ t : PTYSession, (closeCh t).sess.nextSeq = t.nextSeq ∧
      (closeCh t).sess.chunks = t.chunks ∧ (closeCh t).sess.logf = t.logf := by
    intro t
    unfold closeCh
    split <;> exact ⟨rfl, rfl, rfl⟩
  by_cases hd : data.length > 0
  · simp only [hd, if_true, List.length_singleton, List.map_cons, List.map_nil,
      List.flatten_cons, List.flatten_nil, List.append_nil]
    have hsuf : (appendChunk s data now).chunks <:+ s.chunks ++ [newChunk s data now] := by
      obtain ⟨j, hj⟩ := appendChunk_chunks_eq_drop s data now
      rw [hj]; exact List.drop_suffix _ _
    have hlogf : ∀ l, s.logf = some l → data.length ≤ logged →
        ((appendChunk s data now).logf.map (fun f => f ++ data.take logged)) =
          some (l ++ (newChunk s data now).Data) := by
      intro l hl hw
      have : (appendChunk s data now).logf = s.logf := rfl
      rw [this, hl, List.take_of_length_le hw]
      rfl
    cases err with
    | none =>
      simp only [readerIter, hd, if_true]
      exact ⟨rfl, hsuf, hlogf⟩
    | some re =>
      cases re with
      | eof =>
        simp only [readerIter, hd, if_true]
        obtain ⟨h1, h2, h3⟩ := hclose
          { ({ appendChunk s data now with
                logf := (appendChunk s data now).logf.map (fun f => f ++ data.take logged) } :
              PTYSession) with closed := true }
        rw [h1, h2, h3]
        exact ⟨rfl, hsuf, hlogf⟩
      | other msg =>
        simp only [readerIter, hd, if_true]
        exact ⟨rfl, hsuf, hlogf⟩
  · simp only [hd, if_false, List.length_nil, List.map_nil, List.flatten_nil, List.append_nil,
      Nat.add_zero]
    cases err with
    | none =>
      simp only [readerIter, hd, if_false]
      exact ⟨trivial, List.suffix_refl _, fun l hl _ => hl⟩
    | some re =>
      cases re with
      | eof =>
        simp only [readerIter, hd, if_false]
        obtain ⟨h1, h2, h3⟩ := hclose { s with closed := true }
        rw [h1, h2, h3]
        exact ⟨rfl, List.suffix_refl _, fun l hl _ => hl⟩
      | other msg =>
        simp only [readerIter, hd, if_false]
        exact ⟨trivial, List.suffix_refl _, fun l hl _ => hl⟩

theorem reader_nil (s : PTYSession) :
    reader s [] = { out := { sess := s, panicked := false }, produced := [], exited := false } :=
  rfl

theorem reader_cons (s : PTYSession) (r : MasterRead) (rs : List MasterRead) :
    reader s (r :: rs) =
      if (readerIter s r.data r.err r.now r.logged).exits ||
          (readerIter s r.data r.err r.now r.logged).out.panicked then
        { out := (readerIter s r.data r.err r.now r.logged).out
          produced := if r.data.length > 0 then [newChunk s r.data r.now] else []
          exited := true }
      else
        { out := (reader (readerIter s r.data r.err r.now r.logged).out.sess rs).out
          produced := (if r.data.length > 0 then [newChunk s r.data r.now] else []) ++
            (reader (readerIter s r.data r.err r.now r.logged).out.sess rs).produced
          exited := (reader (readerIter s r.data r.err r.now r.logged).out.sess rs).exited } :=
  rfl

/-- What a run of the reader leaves: the counter has advanced by the number of
chunks appended, whose seqs are consecutive from the old counter; the buffer
is a tail of the old buffer followed by them; and, the log writes being
complete, the log file has grown by their data. -/
theorem reader_facts (s : PTYSession) (reads : List MasterRead) :
    (reader s reads).out.sess.nextSeq = s.nextSeq + (reader s reads).produced.length ∧
    (reader s reads).produced.map (fun c => c.Seq) =
      List.range' s.nextSeq (reader s reads).produced.length ∧
    (reader s reads).out.sess.chunks <:+ s.chunks ++ (reader s reads).produced ∧
    (∀ l, s.logf = some l → (∀ r ∈ reads, r.data.length ≤ r.logged) →
      (reader s reads).out.sess.logf =
        some (l ++ ((reader s reads).produced.map (fun c => c.Data)).flatten)) := by
  induction reads generalizing s with
  | nil =>
    simp only [reader_nil, List.length_nil, Nat.add_zero, List.map_nil, List.range'_zero,
      List.append_nil, List.flatten_nil]
    exact ⟨trivial, trivial, List.suffix_refl _, fun l hl _ => hl⟩
  | cons r rs ih =>
    obtain ⟨hn, hc, hl⟩ := readerIter_facts s r.data r.err r.now r.logged
    have hnewseq : (if r.data.length > 0 then [newChunk s r.data r.now] else []).map
        (fun c => c.Seq) =
        List.range' s.nextSeq (if r.data.length > 0 then [newChunk s r.data r.now] else []).length := by
      split
      · simp [newChunk, List.range']
      · simp
    rw [reader_cons]
    split
    · exact ⟨hn, hnewseq, hc, fun l hlog hw => hl l hlog (hw r (List.mem_cons_self _ _))⟩
    · obtain ⟨ih1, ih2, ih3, ih4⟩ := ih (readerIter s r.data r.err r.now r.logged).out.sess
      refine ⟨?_, ?_, ?_, ?_⟩
      · simp only [List.length_append]
        rw [ih1, hn]; omega
      · simp only [List.map_append, List.length_append]
        rw [ih2, hn, hnewseq, List.range'_append_1, Nat.add_comm]
      · refine ih3.trans ?_
        obtain ⟨t, ht⟩ := hc
        refine ⟨t, ?_⟩
        rw [← List.append_assoc, ht, List.append_assoc]
      · intro l hlog hw
        have h1 := hl l hlog (hw r (List.mem_cons_self _ _))
        rw [ih4 _ h1 (fun q hq => hw q (List.mem_cons_of_mem _ hq))]
        simp only [List.map_append, List.flatten_append, List.append_assoc]

/-- C23: for every session whose log file was opened, after the reader has
handled any sequence of PTY reads whose log writes were complete, the bytes of
the log file are those it held before followed by the data of every chunk the
reader appended, in the order of their seqs, which are consecutive; for a new
session that is the concatenation of the data of every chunk ever appended.
The buffer is only a tail of those chunks: the ones evicted are in the log. -/
theorem log_holds_every_chunk_appended (s : PTYSession) (reads : List MasterRead)
    (l0 : List Byte) (hlog : s.logf = some l0)
    (hwrites : ∀ r ∈ reads, r.data.length ≤ r.logged) :
    (reader s reads).out.sess.logf =
      some (l0 ++ ((reader s reads).produced.map (fun c => c.Data)).flatten) ∧
    (reader s reads).produced.map (fun c => c.Seq) =
      List.range' s.nextSeq (reader s reads).produced.length ∧
    (reader s reads).out.sess.nextSeq = s.nextSeq + (reader s reads).produced.length ∧
    (reader s reads).out.sess.chunks <:+ s.chunks ++ (reader s reads).produced ∧
    (∀ sid, s = newSession sid true →
      (reader s reads).out.sess.logf =
        some (((reader s reads).produced.map (fun c => c.Data)).flatten) ∧
      (reader s reads).produced.map (fun c => c.Seq) =
        List.range' 1 (reader s reads).produced.length) := by
  obtain ⟨h1, h2, h3, h4⟩ := reader_facts s reads
  refine ⟨h4 l0 hlog hwrites, h2, h1, h3, ?_⟩
  intro sid hs
  have hl0 : l0 = [] := by
    rw [hs] at hlog
    simp only [newSession, if_true, Option.some.injEq] at hlog
    exact hlog.symm
  have hns : s.nextSeq = 1 := by rw [hs]; rfl
  refine ⟨?_, ?_⟩
  · rw [h4 l0 hlog hwrites, hl0, List.nil_append]
  · rw [h2, hns]

/-- Witness of C23: three reads of 2, 1 and 3 bytes into a new session. -/
theorem log_holds_every_chunk_appended_witness :
    (reader (newSession "a1b2c3d4" true) demoReads).out.sess.logf =
      some ([] ++ ((reader (newSession "a1b2c3d4" true) demoReads).produced.map
        (fun c => c.Data)).flatten) ∧
    (reader (newSession "a1b2c3d4" true) demoReads).out.sess.logf =
      some [104, 105, 10, 111, 107, 10] :=
  ⟨(log_holds_every_chunk_appended (newSession "a1b2c3d4" true) demoReads [] (by decide)
      (by decide)).1,
   by decide⟩

/-! ## The two closing steps -/

theorem waiter_closedCh (s : PTYSession) (rc : Int) : (waiter s rc).closedCh = true := by
  unfold waiter
  by_cases h : s.exitRC = none <;> simp only [h, if_true, if_false] <;>
    split <;> first | assumption | rfl

theorem readerIter_eof_panics (s : PTYSession) (data : List Byte) (now : Int) (logged : Nat)
    (h : s.closedCh = true) :
    (readerIter s data (some ReadErr.eof) now logged).out.panicked = true := by
  simp only [readerIter]
  split
  · simp only [closeCh]
    rw [if_pos (show (appendChunk s data now).closedCh = true from h)]
  · simp only [closeCh]
    rw [if_pos h]

/-- C27 (the code in both orders): when the reader observes end-of-file first and
the reaper records the exit afterwards, both steps complete and the session
ends closed, its channel closed, with the exit code of the reaper; when the
reaper comes first it ends in that same state, but the reader's step that then
observes end-of-file closes the channel a second time and panics. -/
theorem eof_after_reaper_panics :
    (∀ s rc data now logged,
      (readerIter (waiter s rc) data (some ReadErr.eof) now logged).out.panicked = true) ∧
    (∀ sid lo rc,
      (readerIter (newSession sid lo) [] (some ReadErr.eof) 0 0).out.panicked = false ∧
      waiter (readerIter (newSession sid lo) [] (some ReadErr.eof) 0 0).out.sess rc =
        { newSession sid lo with closed := true, closedCh := true, exitRC := some rc } ∧
      waiter (newSession sid lo) rc =
        { newSession sid lo with closed := true, closedCh := true, exitRC := some rc } ∧
      (readerIter (waiter (newSession sid lo) rc) [] (some ReadErr.eof) 0 0).out.panicked
        = true) := by
  refine ⟨fun s rc data now logged => readerIter_eof_panics _ data now logged (waiter_closedCh s rc),
    ?_⟩
  intro sid lo rc
  refine ⟨rfl, rfl, rfl, readerIter_eof_panics _ [] 0 0 (waiter_closedCh _ rc)⟩

/-! ## Window sizes -/

theorem PTYResize_known (m : PTYManager) (id : String) (rows cols : Int) (osErr : Option String)
    (h : m.get id ≠ none) :
    PTYResize m id rows cols osErr =
      { err := osErr, actions := [OSAction.setsize (toUint16 rows) (toUint16 cols)] } := by
  unfold PTYResize
  cases hg : m.get id with
  | none => exact absurd hg h
  | some s => rfl

/-- C30: Resize on a registered id asks for the window size (rows mod 65536,
cols mod 65536), with no default: 0 by 0 for Resize(id, 0, 0) and 65535 by
65535 for Resize(id, -1, -1); a successful Open asks for the same truncation of
the dimensions it has after the substitution of the defaults, so that rows =
65536, which is positive, gives 0 rows and not 40. -/
theorem window_size_truncated_to_uint16 (m : PTYManager) (id : String) (rows cols : Int)
    (osErr : Option String) (hknown : m.get id ≠ none) :
    (PTYResize m id rows cols osErr).actions =
      [OSAction.setsize (rows % 65536).toNat (cols % 65536).toNat] ∧
    (PTYResize m id 0 0 osErr).actions = [OSAction.setsize 0 0] ∧
    (PTYResize m id (-1) (-1) osErr).actions = [OSAction.setsize 65535 65535] ∧
    (∀ m2 argv rows2 cols2 cwd env w, (PTYOpen m2 argv rows2 cols2 cwd env w).err = none →
      (PTYOpen m2 argv rows2 cols2 cwd env w).actions.get? 1 =
        some (OSAction.setsize (((if rows2 ≤ 0 then 40 else rows2) % 65536).toNat)
          (((if cols2 ≤ 0 then 120 else cols2) % 65536).toNat))) ∧
    (∀ m2 argv cols2 cwd env w, (PTYOpen m2 argv 65536 cols2 cwd env w).err = none →
      (PTYOpen m2 argv 65536 cols2 cwd env w).actions.get? 1 =
        some (OSAction.setsize 0 (((if cols2 ≤ 0 then 120 else cols2) % 65536).toNat))) := by
  have hopen : ∀ (m2 : PTYManager) (argv : List String) (rows2 cols2 : Int) (cwd : String)
      (env : Option (List (String × String))) (w : OpenWorld),
      (PTYOpen m2 argv rows2 cols2 cwd env w).err = none →
      (PTYOpen m2 argv rows2 cols2 cwd env w).actions.get? 1 =
        some (OSAction.setsize (((if rows2 ≤ 0 then 40 else rows2) % 65536).toNat)
          (((if cols2 ≤ 0 then 120 else cols2) % 65536).toNat)) := by
    intro m2 argv rows2 cols2 cwd env w hok
    obtain ⟨hargv, hstart⟩ := PTYOpen_err_none m2 argv rows2 cols2 cwd env w hok
    obtain ⟨_, _, _, hact⟩ := PTYOpen_ok m2 argv rows2 cols2 cwd env w hargv hstart
    rw [hact]
    rfl
  refine ⟨?_, ?_, ?_, hopen, ?_⟩
  · rw [PTYResize_known m id rows cols osErr hknown]; rfl
  · rw [PTYResize_known m id 0 0 osErr hknown]; rfl
  · rw [PTYResize_known m id (-1) (-1) osErr hknown]; rfl
  · intro m2 argv cols2 cwd env w hok
    rw [hopen m2 argv 65536 cols2 cwd env w hok]
    rfl

/-- Witness of C30: resizes of the session of `demoManager`, and an Open with
rows = 65536. -/
theorem window_size_truncated_to_uint16_witness :
    (PTYResize demoManager "a1b2c3d4" (-1) 65537 none).actions =
      [OSAction.setsize ((-1 : Int) % 65536).toNat ((65537 : Int) % 65536).toNat] ∧
    (PTYResize demoManager "a1b2c3d4" (-1) 65537 none).actions = [OSAction.setsize 65535 1] ∧
    (PTYOpen NewPTYManager ["/bin/sh"] 65536 0 "" none zeroWorld).actions.get? 1 =
      some (OSAction.setsize 0 120) :=
  ⟨(window_size_truncated_to_uint16 demoManager "a1b2c3d4" (-1) 65537 none (by decide)).1,
   by decide, by decide⟩

/-! ## HTTP status codes -/

/-- Counterexample to C24: a spawn failure on open and a PTY write failure on
send are both answered with status 400, which is not a 5xx status. -/
theorem handler_spawn_failure_status_counterexample :
    (PTYOpen NewPTYManager ["/no/such/program"] 24 80 "" none spawnFailWorld).err =
      some "fork/exec /no/such/program: no such file or directory" ∧
    (handlePTYOpen NewPTYManager "POST"
      (Except.ok { Argv := ["/no/such/program"], Rows := 24, Cols := 80, Cwd := "", Env := none })
      spawnFailWorld).2.status = 400 ∧
    (PTYSend demoManager "a1b2c3d4" [10] (0, some "write /dev/ptmx: input/output error")).err =
      some "write /dev/ptmx: input/output error" ∧
    (handlePTYSend demoManager "POST" (Except.ok { ID := "a1b2c3d4", DataB64 := "Cg==" })
      (some [10]) (0, some "write /dev/ptmx: input/output error")).status = 400 ∧
    ¬ (500 ≤ (400 : Nat)) := by
  decide

/-- C24 as amended: the HTTP handlers answer every core error with status 400,
whatever its kind, and success with 200: for a POST with a decodable body the
status of open, send, read and resize is 400 exactly when the core operation
returns an error, be it an empty argv, a spawn failure, an unknown session id
or a failed write to the PTY; no handler writes a 5xx status. -/
theorem handlers_answer_errors_with_400 (m : PTYManager) :
    (∀ req w,
      (handlePTYOpen m "POST" (Except.ok req) w).2.status =
        (if (PTYOpen m req.Argv req.Rows req.Cols req.Cwd req.Env w).err = none then 200
         else 400)) ∧
    (∀ req b wr,
      (handlePTYSend m "POST" (Except.ok req) (some b) wr).status =
        (if (PTYSend m req.ID b wr).err = none then 200 else 400)) ∧
    (∀ req start ticks r,
      PTYRead m req.ID req.SinceSeq req.MaxBytes (wrapInt64 (req.TimeoutMS * 1000000)) start ticks = some r →
      (handlePTYRead m "POST" (Except.ok req) start ticks).map (fun a => a.status) =
        some (if r.err = none then 200 else 400)) ∧
    (∀ req osErr,
      (handlePTYResize m "POST" (Except.ok req) osErr).status =
        (if (PTYResize m req.ID req.Rows req.Cols osErr).err = none then 200 else 400)) ∧
    (∀ method body w, (handlePTYOpen m method body w).2.status < 500) ∧
    (∀ method body decoded wr, (handlePTYSend m method body decoded wr).status < 500) ∧
    (∀ method body start ticks a, handlePTYRead m method body start ticks = some a →
      a.status < 500) ∧
    (∀ method body osErr, (handlePTYResize m method body osErr).status < 500) := by
  refine ⟨?_, ?_, ?_, ?_, ?_, ?_, ?_, ?_⟩
  · intro req w
    simp only [handlePTYOpen]
    cases h : (PTYOpen m req.Argv req.Rows req.Cols req.Cwd req.Env w).err <;>
      simp [StatusOK, StatusBadRequest]
  · intro req b wr
    simp only [handlePTYSend]
    cases h : (PTYSend m req.ID b wr).err <;> simp [StatusOK, StatusBadRequest]
  · intro req start ticks r hr
    simp only [handlePTYRead, hr]
    cases h : r.err <;> simp [StatusOK, StatusBadRequest]
  · intro req osErr
    simp only [handlePTYResize]
    cases h : (PTYResize m req.ID req.Rows req.Cols osErr).err <;>
      simp [StatusOK, StatusBadRequest]
  · intro method body w
    simp only [handlePTYOpen]
    split
    · simp [StatusMethodNotAllowed]
    · cases body with
      | error e => simp [StatusBadRequest]
      | ok req =>
        simp only
        split <;> simp [StatusOK, StatusBadRequest]
  · intro method body decoded wr
    simp only [handlePTYSend]
    split
    · simp [StatusMethodNotAllowed]
    · cases body with
      | error e => simp [StatusBadRequest]
      | ok req =>
        cases decoded with
        | none => simp [StatusBadRequest]
        | some b =>
          simp only
          split <;> simp [StatusOK, StatusBadRequest]
  · intro method body start ticks a ha
    simp only [handlePTYRead] at ha
    split at ha
    · cases ha; simp [StatusMethodNotAllowed]
    · cases body with
      | error e =>
        simp only [Option.some.injEq] at ha
        subst ha
        simp [StatusBadRequest]
      | ok req =>
        simp only at ha
        cases hr : PTYRead m req.ID req.SinceSeq req.MaxBytes (wrapInt64 (req.TimeoutMS * 1000000)) start
          ticks with
        | none => rw [hr] at ha; cases ha
        | some r =>
          rw [hr] at ha
          simp only at ha
          cases he : r.err <;> rw [he] at ha <;> simp only [Option.some.injEq] at ha <;>
            subst ha <;> simp [StatusOK, StatusBadRequest]
  · intro method body osErr
    simp only [handlePTYResize]
    split
    · simp [StatusMethodNotAllowed]
    · cases body with
      | error e => simp [StatusBadRequest]
      | ok req =>
        simp only
        split <;> simp [StatusOK, StatusBadRequest]

/-- Witness of C24 as amended: a read of an unknown session id. -/
theorem handlers_answer_errors_with_400_witness :
    (handlePTYRead demoManager "POST"
        (Except.ok { ID := "zzzzzzzz", SinceSeq := 0, MaxBytes := 0, TimeoutMS := 300 }) 0 []).map
        (fun a => a.status) =
      some (if ({ chunks := [], closed := false, err := some "no such session" } : ReadResult).err
        = none then 200 else 400) :=
  (handlers_answer_errors_with_400 demoManager).2.2.1
    { ID := "zzzzzzzz", SinceSeq := 0, MaxBytes := 0, TimeoutMS := 300 } 0 []
    { chunks := [], closed := false, err := some "no such session" } (by decide)

/-! ## ShellRun -/

/-- C25: ShellRun's result follows the outcome of the run.  An empty argv or
an empty argv[0] gives the error "argv must not be empty" and nothing is run.
Otherwise the command is started once and the captured stdout and stderr are
returned whatever the outcome; a run without error gives RC = 0 and no error;
a failed run with the deadline exceeded gives the error "timeout after ...",
with RC the exit status when the error is an exit error and 124 otherwise; an
exit error without a timeout gives RC = its exit status and no error; any
other error gives RC = 127 and that error. -/
theorem shellRun_result_by_outcome (req : RunRequest) (w : RunWorld) :
    ((req.Argv = [] ∨ req.Argv.head? = some "") →
      ShellRun req w =
        { res := { RC := 0, Stdout := [], Stderr := [], Duration := 0, Cwd := "" }
          err := some "argv must not be empty", actions := [] }) ∧
    (req.Argv ≠ [] → req.Argv.head? ≠ some "" →
      ((ShellRun req w).res.Stdout = w.stdout ∧ (ShellRun req w).res.Stderr = w.stderr ∧
        (ShellRun req w).actions =
          [OSAction.start { path := req.Argv.headD "", args := req.Argv, dir := req.Cwd,
                            env := shellRunEnv req.Env }]) ∧
      (w.runErr = none → (ShellRun req w).res.RC = 0 ∧ (ShellRun req w).err = none) ∧
      (∀ st msg, w.runErr = some (RunErr.exit st msg) → w.deadlineExceeded = true →
        (ShellRun req w).res.RC = exitCodeFromError st ∧
        (ShellRun req w).err = some ("timeout after " ++ w.timeoutText ++ ": " ++ msg)) ∧
      (∀ msg, w.runErr = some (RunErr.other msg) → w.deadlineExceeded = true →
        (ShellRun req w).res.RC = 124 ∧
        (ShellRun req w).err = some ("timeout after " ++ w.timeoutText ++ ": " ++ msg)) ∧
      (∀ st msg, w.runErr = some (RunErr.exit st msg) → w.deadlineExceeded = false →
        (ShellRun req w).res.RC = exitCodeFromError st ∧ (ShellRun req w).err = none) ∧
      (∀ msg, w.runErr = some (RunErr.other msg) → w.deadlineExceeded = false →
        (ShellRun req w).res.RC = 127 ∧ (ShellRun req w).err = some msg)) ∧
    (∀ st, exitCodeFromError (some st) = st) ∧ exitCodeFromError none = 1 := by
  refine ⟨?_, ?_, fun _ => rfl, rfl⟩
  · intro h
    cases hargv : req.Argv with
    | nil => simp [ShellRun, hargv]
    | cons name args =>
      rw [hargv] at h
      rcases h with h | h
      · cases h
      · simp only [List.head?_cons, Option.some.injEq] at h
        simp [ShellRun, hargv, h]
  · intro hne hhead
    cases hargv : req.Argv with
    | nil => exact absurd hargv hne
    | cons name args =>
      rw [hargv] at hhead
      have hname : name ≠ "" := by
        intro hn
        apply hhead
        rw [hn]; rfl
      refine ⟨?_, ?_, ?_, ?_, ?_, ?_⟩
      · simp only [ShellRun, hargv, hname, if_false, List.headD_cons]
        cases w.runErr with
        | none => exact ⟨rfl, rfl, rfl⟩
        | some e =>
          cases e <;> cases w.deadlineExceeded <;> exact ⟨rfl, rfl, rfl⟩
      · intro hrun
        simp [ShellRun, hargv, hname, hrun]
      · intro st msg hrun hdl
        simp [ShellRun, hargv, hname, hrun, hdl, RunErr.msg]
      · intro msg hrun hdl
        simp [ShellRun, hargv, hname, hrun, hdl, RunErr.msg]
      · intro st msg hrun hdl
        simp [ShellRun, hargv, hname, hrun, hdl]
      · intro msg hrun hdl
        simp [ShellRun, hargv, hname, hrun, hdl]

/-- Witness of C25: `/bin/sh -c "exit 3"` exiting with status 3 within its
timeout. -/
theorem shellRun_result_by_outcome_witness :
    (ShellRun demoRun exitThreeWorld).res.RC = exitCodeFromError (some 3) ∧
    (ShellRun demoRun exitThreeWorld).err = none ∧
    ShellRun demoRun exitThreeWorld =
      { res := { RC := 3, Stdout := [111], Stderr := [101], Duration := 1000000, Cwd := "/tmp" }
        err := none
        actions := [OSAction.start { path := "/bin/sh", args := ["/bin/sh", "-c", "exit 3"],
                                     dir := "/tmp", env := some [] }] } :=
  ⟨((shellRun_result_by_outcome demoRun exitThreeWorld).2.1 (by decide) (by decide)).2.2.2.2.1
      (some 3) "exit status 3" (by decide) (by decide) |>.1,
   ((shellRun_result_by_outcome demoRun exitThreeWorld).2.1 (by decide) (by decide)).2.2.2.2.1
      (some 3) "exit status 3" (by decide) (by decide) |>.2,
   by decide⟩

/-! ## The session mutex -/

/-- C26 (the code along each path): the reader and the reaper touch the guarded
fields only with the session mutex held, and so does an iteration of Read that
returns its snapshot or goes to sleep; the iteration of Read that returns by
timeout reads `closed` once more after it has unlocked, so that it is guarded
exactly when it is not that one. -/
theorem read_timeout_path_reads_closed_unlocked :
    (∀ s data err now, Guarded (readerIterOps s data err now)) ∧
    (∀ s, Guarded (waiterOps s)) ∧
    (∀ sinceSeq maxBytes timeout deadline t,
      Guarded (readIterOps sinceSeq maxBytes timeout deadline t) ↔
        ¬ ((collect sinceSeq maxBytes t.sess.chunks 0).length = 0 ∧ t.sess.closed = false ∧
          timeout > 0 ∧ t.now > deadline)) ∧
    readIter 0 0 100000000 100000000 (idleTick 150000001) =
      Iter.ret { chunks := [], closed := false, err := none } ∧
    readIterOps 0 0 100000000 100000000 (idleTick 150000001) =
      [MemOp.lock, MemOp.read Field.chunks, MemOp.read Field.closed, MemOp.unlock,
       MemOp.read Field.closed] ∧
    ¬ Guarded (readIterOps 0 0 100000000 100000000 (idleTick 150000001)) := by
  refine ⟨?_, ?_, ?_, by decide, by decide, by decide⟩
  · intro s data err now
    unfold Guarded readerIterOps enforceCapOps
    by_cases hd : data.length > 0
    · by_cases hc : (enforceCap (pushChunk s data now)).chunks.length <
          (pushChunk s data now).chunks.length
      · simp only [hd, hc, if_true]
        cases err with
        | none => rfl
        | some re => cases re <;> rfl
      · simp only [hd, hc, if_true, if_false]
        cases err with
        | none => rfl
        | some re => cases re <;> rfl
    · simp only [hd, if_false]
      cases err with
      | none => rfl
      | some re => cases re <;> rfl
  · intro s
    unfold Guarded waiterOps
    split <;> rfl
  · intro sinceSeq maxBytes timeout deadline t
    unfold Guarded readIterOps
    simp only
    by_cases h1 : (collect sinceSeq maxBytes t.sess.chunks 0).length > 0 ∨ t.sess.closed = true
    · rw [if_pos h1]
      simp only [List.cons_append, List.nil_append, guardedFrom, Bool.and_self, true_iff]
      rintro ⟨hlen, hcl, _⟩
      rcases h1 with h | h
      · omega
      · rw [hcl] at h; cases h
    · rw [if_neg h1]
      have hlen : (collect sinceSeq maxBytes t.sess.chunks 0).length = 0 := by
        by_contra hne
        exact h1 (Or.inl (Nat.pos_of_ne_zero hne))
      have hcl : t.sess.closed = false := by
        cases hc : t.sess.closed with
        | false => rfl
        | true => exact absurd (Or.inr hc) h1
      by_cases h2 : timeout > 0 ∧ t.now > deadline
      · rw [if_pos h2]
        simp only [List.cons_append, List.nil_append, guardedFrom, Bool.and_self,
          Bool.false_and, Bool.and_false]
        constructor
        · intro h; cases h
        · intro h; exact absurd ⟨hlen, hcl, h2.1, h2.2⟩ h
      · rw [if_neg h2]
        simp only [List.cons_append, List.nil_append, guardedFrom, Bool.and_self, true_iff]
        rintro ⟨_, _, h3, h4⟩
        exact h2 ⟨h3, h4⟩

end PTY
